import Mathlib

/-!
Verification development for the Better-Binary-Quantization rust-wasm core.

Modelling conventions (shallow embedding of the Rust sources under
src/rust-wasm/src/):

* `f32` values are modelled as exact rationals (`ℚ`).  Claims settled here are
  structural (result shapes, integer ranges, orderings, error/panic behaviour)
  and do not depend on rounding of individual float operations.  Where the Rust
  code divides by zero (f32 gives `inf`/`NaN`) the rational model yields `0`;
  each such site is guarded or commented at its definition.
* `f32::sqrt` has no rational counterpart; every definition that needs it takes
  an explicit function argument `fsqrt : ℚ → ℚ` standing for it, and theorems
  quantify over `fsqrt`.  Concrete runs in witnesses use inputs on which the
  chosen `fsqrt` agrees with the true square root (inputs `0`).
* `u8` values are modelled as `Nat` (call sites keep them `< 256`); `i32`
  accumulators as `Int`; `usize` as `Nat`.
* Rust `Result<T, String>` is modelled by `RRes T` with constructor `errs`
  (the message text plays no role in any claim and is elided); a Rust panic
  (out-of-bounds slice index, `f32::clamp` with `lo > hi`) is the separate
  constructor `panics`, so that recoverable errors and aborts stay distinct.
-/

/-- Outcome of a fallible Rust computation: `ok` = `Ok(_)`, `errs` = `Err(_)`
(message elided), `panics` = the thread panics (index out of bounds or a
`clamp` assertion). -/
inductive RRes (α : Type) where
  | panics : RRes α
  | errs : RRes α
  | ok : α → RRes α
deriving DecidableEq, Repr

def RRes.bind {α β : Type} : RRes α → (α → RRes β) → RRes β
  | .panics, _ => .panics
  | .errs, _ => .errs
  | .ok a, f => f a

instance : Monad RRes where
  pure := RRes.ok
  bind := RRes.bind

def RRes.isOk {α : Type} : RRes α → Bool
  | .ok _ => true
  | _ => false

def RRes.toOption {α : Type} : RRes α → Option α
  | .ok a => some a
  | _ => none

/-- `vector_similarity.rs`: the three similarity metrics. -/
inductive SimilarityFunction where
  | Euclidean
  | Cosine
  | MaximumInnerProduct
deriving DecidableEq, Repr

/-! ## constants.rs -/

def QUERY_BITS : Nat := 4

def INDEX_BITS : Nat := 1

/-- `FOUR_BIT_SCALE = 1.0 / 15.0` (the f32 literal is modelled exactly). -/
def FOUR_BIT_SCALE : ℚ := 1 / 15

def DEFAULT_LAMBDA : ℚ := 1 / 10

def DEFAULT_ITERS : Nat := 5

/-- `MINIMUM_MSE_GRID`: one `[lo, hi]` pair per bit width 1..8 (the decimal
f64 literals are taken at their written decimal values). -/
def MINIMUM_MSE_GRID : List (ℚ × ℚ) :=
  [(-798/1000, 798/1000), (-1493/1000, 1493/1000), (-2051/1000, 2051/1000),
   (-2514/1000, 2514/1000), (-2916/1000, 2916/1000), (-3278/1000, 3278/1000),
   (-3611/1000, 3611/1000), (-3922/1000, 3922/1000)]

def MIN_DETERMINANT : ℚ := 1 / 10 ^ 12

def EPSILON : ℚ := 1 / 10 ^ 8

/-! ## bitwise_dot_product.rs -/

/-- `compute_quantized_dot_product`: naive byte-multiply-and-sum dot product of
two equal-length unpacked arrays; `Err` on length mismatch. -/
def compute_quantized_dot_product (q d : List Nat) : RRes Int :=
  if q.length ≠ d.length then .errs
  else .ok (((q.zip d).map (fun p => (p.1 : Int) * (p.2 : Int))).sum)

/-- `compute_int4_bit_dot_product`: delegates to the naive dot product. -/
def compute_int4_bit_dot_product (q d : List Nat) : RRes Int :=
  compute_quantized_dot_product q d

/-- `compute_int1_bit_dot_product`: delegates to the naive dot product. -/
def compute_int1_bit_dot_product (q d : List Nat) : RRes Int :=
  compute_quantized_dot_product q d

/-- Bit `j` of a byte: `(b >> j) & 1`. -/
def byteBit (b j : Nat) : Nat := (b >>> j) &&& 1

/-- `u8::count_ones`, written as the sum of the eight bit fields (exact for
values below 256, which is every value a `u8` can hold). -/
def count_ones8 (b : Nat) : Nat :=
  ((List.range 8).map (fun j => byteBit b j)).sum

/-- `compute_packed_bit_dot_product`: `total_bits - 2 * popcount(q XOR d)` over
two equal-length bit-packed buffers; `Err` on length mismatch. -/
def compute_packed_bit_dot_product (q d : List Nat) : RRes Int :=
  if q.length ≠ d.length then .errs
  else
    let xor_sum : Nat := ((q.zip d).map (fun p => count_ones8 (p.1 ^^^ p.2))).sum
    let total_bits : Int := (q.length * 8 : Nat)
    .ok (total_bits - 2 * (xor_sum : Int))

/-- Unpack one byte into its 8 bits, MSB first (bit 7 = component 0). -/
def unpackByte (b : Nat) : List Nat :=
  [byteBit b 7, byteBit b 6, byteBit b 5, byteBit b 4,
   byteBit b 3, byteBit b 2, byteBit b 1, byteBit b 0]

/-- Unpack a packed buffer into its 0/1 component array, MSB first per byte. -/
def unpackBits (bs : List Nat) : List Nat := bs.flatMap unpackByte

/-! ## batch_dot_product.rs -/

/-- One target's dot product inside
`compute_batch_four_bit_dot_product_direct_packed`: the 8-way unrolled main
loop over full bytes followed by the masked trailing partial byte. -/
def fourBitDotOne (query_vector continuous_buffer : List Nat)
    (target_offset dimension : Nat) : Int :=
  let main_packed_dimension := dimension / 8
  let mainSum : Int := ((List.range main_packed_dimension).map (fun j =>
    let packed_value := continuous_buffer.getD (target_offset + j) 0
    let query_offset := j * 8
    (query_vector.getD query_offset 0 : Int) * (byteBit packed_value 7 : Int) +
    (query_vector.getD (query_offset + 1) 0 : Int) * (byteBit packed_value 6 : Int) +
    (query_vector.getD (query_offset + 2) 0 : Int) * (byteBit packed_value 5 : Int) +
    (query_vector.getD (query_offset + 3) 0 : Int) * (byteBit packed_value 4 : Int) +
    (query_vector.getD (query_offset + 4) 0 : Int) * (byteBit packed_value 3 : Int) +
    (query_vector.getD (query_offset + 5) 0 : Int) * (byteBit packed_value 2 : Int) +
    (query_vector.getD (query_offset + 6) 0 : Int) * (byteBit packed_value 1 : Int) +
    (query_vector.getD (query_offset + 7) 0 : Int) * (byteBit packed_value 0 : Int))).sum
  let remainder_start_dim := main_packed_dimension * 8
  let remSum : Int :=
    if remainder_start_dim < dimension then
      let last_packed_value := continuous_buffer.getD (target_offset + main_packed_dimension) 0
      ((List.range (dimension - remainder_start_dim)).map (fun t =>
        let dim := remainder_start_dim + t
        (query_vector.getD dim 0 : Int) * (byteBit last_packed_value (7 - dim % 8) : Int))).sum
    else 0
  mainSum + remSum

/-- `compute_batch_four_bit_dot_product_direct_packed`.  The guard names the
exact panic-freedom condition of the Rust slice accesses: with `n > 0` targets
and dimension `D > 0`, each target reads buffer bytes up to
`i * ceil(D/8) + ceil(D/8) - 1` and query entries up to `D - 1`. -/
def compute_batch_four_bit_dot_product_direct_packed
    (query_vector continuous_buffer : List Nat) (num_vectors dimension : Nat) :
    RRes (List Int) :=
  let packed_dimension := (dimension + 7) / 8
  if num_vectors = 0 ∨ dimension = 0 ∨
     (dimension ≤ query_vector.length ∧
      num_vectors * packed_dimension ≤ continuous_buffer.length) then
    .ok ((List.range num_vectors).map (fun i =>
      fourBitDotOne query_vector continuous_buffer (i * packed_dimension) dimension))
  else .panics

/-- `compute_batch_one_bit_dot_product_direct_packed`: XOR + popcount per byte,
accumulating `8 - 2 * hamming` per byte.  Guard as above. -/
def compute_batch_one_bit_dot_product_direct_packed
    (query_vector continuous_buffer : List Nat) (num_vectors packed_dimension : Nat) :
    RRes (List Int) :=
  if num_vectors = 0 ∨ packed_dimension = 0 ∨
     (packed_dimension ≤ query_vector.length ∧
      num_vectors * packed_dimension ≤ continuous_buffer.length) then
    .ok ((List.range num_vectors).map (fun i =>
      ((List.range packed_dimension).map (fun j =>
        let q_byte := query_vector.getD j 0
        let d_byte := continuous_buffer.getD (i * packed_dimension + j) 0
        (8 - 2 * (count_ones8 (q_byte ^^^ d_byte) : Int) : Int))).sum))
  else .panics

/-- `create_direct_packed_buffer`: copies each selected vector, truncated or
zero-padded to `packed_size`, into one contiguous buffer; `vectors[index]`
panics when an ordinal is out of range of the supplied vector list. -/
def create_direct_packed_buffer (vectors : List (List Nat)) (indices : List Nat)
    (packed_size : Nat) : RRes (List Nat) :=
  if indices.all (· < vectors.length) then
    .ok (indices.flatMap (fun index =>
      let vector := vectors.getD index []
      vector.take packed_size ++ List.replicate (packed_size - min packed_size vector.length) 0))
  else .panics

/-! ## optimized_scalar_quantizer.rs -/

structure QuantizationResult where
  lower_interval : ℚ
  upper_interval : ℚ
  additional_correction : ℚ
  quantized_component_sum : ℚ
deriving DecidableEq, Repr

structure OptimizedScalarQuantizer where
  lambda : ℚ
  iters : Nat
  similarity_function : SimilarityFunction
deriving DecidableEq, Repr

def OptimizedScalarQuantizer.new (lambda : Option ℚ) (iters : Option Nat)
    (similarity_function : Option SimilarityFunction) : OptimizedScalarQuantizer :=
  ⟨lambda.getD DEFAULT_LAMBDA, iters.getD DEFAULT_ITERS,
   similarity_function.getD .Euclidean⟩

/-- `f32::MAX` (exact integer value of the largest finite f32). -/
def f32MAX : ℚ := 340282346638528859811704183484516925440

/-- `f32::clamp`: panics when the lower bound exceeds the upper bound. -/
def rustClamp (x lo hi : ℚ) : RRes ℚ :=
  if lo ≤ hi then .ok (max lo (min x hi)) else .panics

/-- `f32::round`: round half away from zero. -/
def roundRust (x : ℚ) : Int := if 0 ≤ x then ⌊x + 1/2⌋ else -⌊-x + 1/2⌋

/-- `as u8` on an f32: truncate toward zero, saturating into `[0, 255]`
(negative values saturate to 0, which `Int.toNat` provides). -/
def rustAsU8 (x : ℚ) : Nat := (min 255 ⌊x⌋).toNat

/-- `vector_utils::compute_dot_product` (zip truncates to the shorter input,
as Rust's `Iterator::zip` does). -/
def compute_dot_product (a b : List ℚ) : ℚ := ((a.zip b).map (fun p => p.1 * p.2)).sum

def OptimizedScalarQuantizer.get_initial_interval (_q : OptimizedScalarQuantizer)
    (bits : Nat) (std vec_mean minv maxv : ℚ) : RRes (ℚ × ℚ) :=
  if bits < 1 ∨ bits > 8 then .errs
  else
    let grid_idx := bits - 1
    if grid_idx ≥ MINIMUM_MSE_GRID.length then .errs
    else
      let grid := MINIMUM_MSE_GRID.getD grid_idx (0, 0)
      match rustClamp (grid.1 * std + vec_mean) minv maxv with
      | .panics => .panics
      | .errs => .errs
      | .ok lo =>
        match rustClamp (grid.2 * std + vec_mean) minv maxv with
        | .panics => .panics
        | .errs => .errs
        | .ok hi => .ok (lo, hi)

/-- `compute_loss`.  The per-element `xi.clamp(a, b)` asserts `a ≤ b`, hence
the `panics` guard for a nonempty vector with an unordered interval.  In exact
arithmetic `1/step` is `0` when `step = 0` (f32 would give `inf`); the loss
value on that degenerate path differs from the float one, but no claim below
depends on it. -/
def compute_loss (lambda : ℚ) (vector : List ℚ) (interval : ℚ × ℚ)
    (points : Int) (norm2 : ℚ) : RRes ℚ :=
  let a := interval.1
  let b := interval.2
  if vector ≠ [] ∧ ¬(a ≤ b) then .panics
  else
    let step := (b - a) / ((points - 1 : Int) : ℚ)
    let step_inv := 1 / step
    let xiqOf := fun (xi : ℚ) =>
      let clamped := max a (min xi b)
      let k : ℚ := (roundRust ((clamped - a) * step_inv) : Int)
      a + step * k
    let xe := (vector.map (fun xi => xi * (xi - xiqOf xi))).sum
    let e := (vector.map (fun xi => (xi - xiqOf xi) * (xi - xiqOf xi))).sum
    .ok ((1 - lambda) * xe * xe / norm2 + lambda * e)

/-- The body of `optimize_intervals`' `for _ in 0..self.iters` loop, as a
recursion on the remaining iteration count, carrying the current interval and
current loss. -/
def optimize_loop (lambda scale : ℚ) (vector : List ℚ) (norm2 : ℚ) (points : Int) :
    Nat → (ℚ × ℚ) → ℚ → RRes (ℚ × ℚ)
  | 0, interval, _ => .ok interval
  | Nat.succ iters_left, interval, initial_loss =>
    let a := interval.1
    let b := interval.2
    if vector ≠ [] ∧ ¬(a ≤ b) then .panics
    else
      let step_inv := ((points - 1 : Int) : ℚ) / (b - a)
      let sOf := fun (xi : ℚ) =>
        let clamped := max a (min xi b)
        let k : ℚ := (roundRust ((clamped - a) * step_inv) : Int)
        k / ((points - 1 : Int) : ℚ)
      let daa := (vector.map (fun xi => (1 - sOf xi) * (1 - sOf xi))).sum
      let dab := (vector.map (fun xi => (1 - sOf xi) * sOf xi)).sum
      let dbb := (vector.map (fun xi => sOf xi * sOf xi)).sum
      let dax := (vector.map (fun xi => xi * (1 - sOf xi))).sum
      let dbx := (vector.map (fun xi => xi * sOf xi)).sum
      let m0 := scale * dax * dax + lambda * daa
      let m1 := scale * dax * dbx + lambda * dab
      let m2 := scale * dbx * dbx + lambda * dbb
      let det := m0 * m2 - m1 * m1
      if |det| < MIN_DETERMINANT then .ok interval
      else
        let a_opt := (m2 * dax - m1 * dbx) / det
        let b_opt := (m0 * dbx - m1 * dax) / det
        if |interval.1 - a_opt| < EPSILON ∧ |interval.2 - b_opt| < EPSILON then .ok interval
        else
          match compute_loss lambda vector (a_opt, b_opt) points norm2 with
          | .panics => .panics
          | .errs => .errs
          | .ok new_loss =>
            if new_loss > initial_loss then .ok interval
            else optimize_loop lambda scale vector norm2 points iters_left (a_opt, b_opt) new_loss

/-- `optimize_intervals`.  Rust returns early when `scale = (1-λ)/norm2` is not
finite; with finite operands that happens exactly when `norm2 = 0`, which is
the guard used here (f32 overflow of a finite quotient has no rational
counterpart). -/
def OptimizedScalarQuantizer.optimize_intervals (q : OptimizedScalarQuantizer)
    (interval : ℚ × ℚ) (vector : List ℚ) (norm2 : ℚ) (points : Int) : RRes (ℚ × ℚ) :=
  match compute_loss q.lambda vector interval points norm2 with
  | .panics => .panics
  | .errs => .errs
  | .ok initial_loss =>
    let scale := (1 - q.lambda) / norm2
    if norm2 = 0 then .ok interval
    else optimize_loop q.lambda scale vector norm2 points q.iters interval initial_loss

/-- The body of `scalar_quantize`'s final write loop for one component: the
value stored into `destination[i]` (threshold binarization for 1 bit,
round-to-step with `.min(n_steps)` and the saturating `as u8` cast
otherwise). -/
def quantizeComponent (bits : Nat) (a b step_inv : ℚ) (xi : ℚ) : Nat :=
  let clamped := max a (min xi b)
  if bits = 1 then
    let threshold := (a + b) / 2
    if clamped ≥ threshold then 1 else 0
  else
    let assignment : ℚ := (roundRust ((clamped - a) * step_inv) : Int)
    rustAsU8 (min assignment ((2 ^ bits - 1 : Nat) : ℚ))

/-- The same loop's per-component contribution to `quantized_component_sum`
(the 1-bit output value, or the pre-clamp rounded step index). -/
def quantizeSumTerm (bits : Nat) (a b step_inv : ℚ) (xi : ℚ) : ℚ :=
  let clamped := max a (min xi b)
  if bits = 1 then
    let threshold := (a + b) / 2
    if clamped ≥ threshold then 1 else 0
  else ((roundRust ((clamped - a) * step_inv) : Int) : ℚ)

/-- Steps 6-7 of `scalar_quantize` (the final quantization loop over an
already-optimized interval and the assembly of the returned
`QuantizationResult`), split out as a named stage.  The per-element
`xi.clamp(a, b)` panics for a nonempty vector when the interval is
unordered. -/
def OptimizedScalarQuantizer.scalar_quantize_core (q : OptimizedScalarQuantizer)
    (bits : Nat) (interval : ℚ × ℚ) (working_vector : List ℚ)
    (norm2 centroid_dot : ℚ) : RRes (List Nat × QuantizationResult) :=
  let a := interval.1
  let b := interval.2
  let n_steps : Nat := 2 ^ bits - 1
  let step := if (0 : Nat) < n_steps then (b - a) / (n_steps : ℚ) else 0
  let step_inv := if step > 0 then 1 / step else 0
  if working_vector ≠ [] ∧ ¬(a ≤ b) then .panics
  else
    let dest := working_vector.map (quantizeComponent bits a b step_inv)
    let quantized_component_sum :=
      (working_vector.map (quantizeSumTerm bits a b step_inv)).sum
    let final_additional_correction :=
      if q.similarity_function = .Euclidean then norm2 else centroid_dot
    .ok (dest, ⟨a, b, final_additional_correction, quantized_component_sum⟩)

/-- `scalar_quantize`.  `destLen` mirrors the length of the caller-supplied
destination slice (every call site passes a fresh `vec![0; vector.len()]`).
The single statistics pass of the Rust code is written as separate folds over
the same centered vector; `vec_std` is `fsqrt` applied to the variance, with
`fsqrt` standing for `f32::sqrt`. -/
def OptimizedScalarQuantizer.scalar_quantize (q : OptimizedScalarQuantizer)
    (fsqrt : ℚ → ℚ) (vector : List ℚ) (destLen : Nat) (bits : Nat)
    (centroid : List ℚ) : RRes (List Nat × QuantizationResult) :=
  if vector.length ≠ centroid.length then .errs
  else if destLen ≠ vector.length then .errs
  else if bits < 1 ∨ bits > 8 then .errs
  else
    let centroid_dot :=
      if q.similarity_function ≠ .Euclidean then compute_dot_product vector centroid else 0
    let working_vector := (vector.zip centroid).map (fun p => p.1 - p.2)
    let minv := working_vector.foldl min f32MAX
    let maxv := working_vector.foldl max (-f32MAX)
    let sum := working_vector.sum
    let sum_sq := (working_vector.map (fun v => v * v)).sum
    let vec_mean := sum / (vector.length : ℚ)
    let variance_sum := (working_vector.map (fun v => (v - vec_mean) * (v - vec_mean))).sum
    let vec_std := fsqrt (variance_sum / (vector.length : ℚ))
    let norm2 := sum_sq
    match q.get_initial_interval bits vec_std vec_mean minv maxv with
    | .panics => .panics
    | .errs => .errs
    | .ok interval0 =>
      match q.optimize_intervals interval0 working_vector norm2 ((2 : Int) ^ bits) with
      | .panics => .panics
      | .errs => .errs
      | .ok interval =>
        q.scalar_quantize_core bits interval working_vector norm2 centroid_dot

/-- The inner `for j in (0..8).rev()` of `pack_as_binary`: consume up to 8
components, OR-ing `(val & 1) << j` for `j = 7, 6, …`; a component other than
0/1 is the value error. -/
def packBits : List Nat → Nat → RRes Nat
  | [], _ => .ok 0
  | v :: rest, j =>
    if v ≠ 0 ∧ v ≠ 1 then .errs
    else
      match packBits rest (j - 1) with
      | .panics => .panics
      | .errs => .errs
      | .ok r => .ok (r ||| ((v &&& 1) <<< j))

/-- `pack_as_binary`.  The Rust loop writes each produced byte at index
`(i - 1) / 8`, which is exactly the ordinal of the 8-component group just
consumed, and errors when that index reaches the end of the destination; the
model consumes the destination's bytes positionally, one per group, leaving
any surplus destination bytes untouched at the tail. -/
def pack_as_binary : List Nat → List Nat → RRes (List Nat)
  | [], packed => .ok packed
  | v0 :: v1 :: v2 :: v3 :: v4 :: v5 :: v6 :: v7 :: vrest, packed =>
    match packBits [v0, v1, v2, v3, v4, v5, v6, v7] 7 with
    | .panics => .panics
    | .errs => .errs
    | .ok byte =>
      match packed with
      | [] => .errs
      | _ :: ps =>
        match pack_as_binary vrest ps with
        | .panics => .panics
        | .errs => .errs
        | .ok rest => .ok (byte :: rest)
  | vs, packed =>
    match packBits vs 7 with
    | .panics => .panics
    | .errs => .errs
    | .ok byte =>
      match packed with
      | [] => .errs
      | _ :: ps => .ok (byte :: ps)

/-! ## binary_quantized_scorer.rs -/

structure QuantizedScoreResult where
  score : ℚ
  bit_dot_product : Int
  query_corrections : QuantizationResult
  index_corrections : QuantizationResult
deriving DecidableEq, Repr

structure BinaryQuantizedScorer where
  similarity_function : SimilarityFunction
deriving DecidableEq, Repr

def scale_max_inner_product_score (score : ℚ) : ℚ :=
  if score < 0 then 1 / (1 - score) else score + 1

def BinaryQuantizedScorer.compute_one_bit_similarity_score (s : BinaryQuantizedScorer)
    (qc_dist : Int) (query_corrections index_corrections : QuantizationResult)
    (dimension : Nat) (centroid_dp : ℚ) : ℚ :=
  let x1 := index_corrections.quantized_component_sum
  let ax := index_corrections.lower_interval
  let lx := index_corrections.upper_interval - ax
  let ay := query_corrections.lower_interval
  let ly := query_corrections.upper_interval - ay
  let y1 := query_corrections.quantized_component_sum
  let score := ax * ay * (dimension : ℚ) + ay * lx * x1 + ax * ly * y1 +
    lx * ly * (qc_dist : ℚ)
  match s.similarity_function with
  | .Euclidean =>
    let score2 := query_corrections.additional_correction +
      index_corrections.additional_correction - 2 * score
    max (1 / (1 + score2)) 0
  | .Cosine =>
    let score2 := score + query_corrections.additional_correction +
      index_corrections.additional_correction - centroid_dp
    max ((1 + score2) / 2) 0
  | .MaximumInnerProduct =>
    let score2 := score + query_corrections.additional_correction +
      index_corrections.additional_correction - centroid_dp
    scale_max_inner_product_score score2

def BinaryQuantizedScorer.compute_four_bit_similarity_score (s : BinaryQuantizedScorer)
    (qc_dist : Int) (query_corrections index_corrections : QuantizationResult)
    (dimension : Nat) (centroid_dp : ℚ) : ℚ :=
  let x1 := index_corrections.quantized_component_sum
  let ax := index_corrections.lower_interval
  let lx := index_corrections.upper_interval - ax
  let ay := query_corrections.lower_interval
  let ly := (query_corrections.upper_interval - ay) * FOUR_BIT_SCALE
  let y1 := query_corrections.quantized_component_sum
  let score := ax * ay * (dimension : ℚ) + ay * lx * x1 + ax * ly * y1 +
    lx * ly * (qc_dist : ℚ)
  match s.similarity_function with
  | .Euclidean =>
    let euclidean_score := query_corrections.additional_correction +
      index_corrections.additional_correction - 2 * score
    max (1 / (1 + euclidean_score)) 0
  | .Cosine =>
    let adjusted_score := score + query_corrections.additional_correction +
      index_corrections.additional_correction - centroid_dp
    max ((1 + adjusted_score) / 2) 0
  | .MaximumInnerProduct =>
    let adjusted_score := score + query_corrections.additional_correction +
      index_corrections.additional_correction - centroid_dp
    scale_max_inner_product_score adjusted_score

def BinaryQuantizedScorer.compute_one_bit_quantized_score (s : BinaryQuantizedScorer)
    (quantized_query : List Nat) (query_corrections : QuantizationResult)
    (quantized_index : List Nat) (index_corrections : QuantizationResult)
    (dimension : Nat) (centroid_dp : ℚ) : RRes QuantizedScoreResult :=
  match compute_int1_bit_dot_product quantized_query quantized_index with
  | .panics => .panics
  | .errs => .errs
  | .ok qc_dist =>
    .ok { score := s.compute_one_bit_similarity_score qc_dist query_corrections
            index_corrections dimension centroid_dp,
          bit_dot_product := qc_dist,
          query_corrections := query_corrections,
          index_corrections := index_corrections }

def BinaryQuantizedScorer.compute_four_bit_quantized_score (s : BinaryQuantizedScorer)
    (quantized_query : List Nat) (query_corrections : QuantizationResult)
    (quantized_index : List Nat) (index_corrections : QuantizationResult)
    (dimension : Nat) (centroid_dp : ℚ) : RRes QuantizedScoreResult :=
  match compute_int4_bit_dot_product quantized_query quantized_index with
  | .panics => .panics
  | .errs => .errs
  | .ok qc_dist =>
    .ok { score := s.compute_four_bit_similarity_score qc_dist query_corrections
            index_corrections dimension centroid_dp,
          bit_dot_product := qc_dist,
          query_corrections := query_corrections,
          index_corrections := index_corrections }

/-- `compute_quantized_score`: the fast single-pair path supports only query
bit widths 1 and 4; anything else is the unsupported-configuration error.  The
trailing `Option` parameter mirrors the unused `_original_query_vector`. -/
def BinaryQuantizedScorer.compute_quantized_score (s : BinaryQuantizedScorer)
    (quantized_query : List Nat) (query_corrections : QuantizationResult)
    (quantized_index : List Nat) (index_corrections : QuantizationResult)
    (query_bits : Nat) (dimension : Nat) (centroid_dp : ℚ)
    (_original_query_vector : Option (List ℚ)) : RRes QuantizedScoreResult :=
  if query_bits = 1 then
    s.compute_one_bit_quantized_score quantized_query query_corrections
      quantized_index index_corrections dimension centroid_dp
  else if query_bits = 4 then
    s.compute_four_bit_quantized_score quantized_query query_corrections
      quantized_index index_corrections dimension centroid_dp
  else .errs

def zeroCorrections : QuantizationResult := ⟨0, 0, 0, 0⟩

/-- The `else` branch of `compute_batch_quantized_scores`: score each ordinal
through the single-pair path.  `target_vectors[target_ord]` and
`target_corrections[target_ord]` panic on an out-of-range ordinal (the
arguments are evaluated before the call). -/
def batchFallback (s : BinaryQuantizedScorer) (quantized_query : List Nat)
    (query_corrections : QuantizationResult) (target_vectors : List (List Nat))
    (target_corrections : List QuantizationResult) (query_bits dimension : Nat)
    (centroid_dp : ℚ) : List Nat → RRes (List QuantizedScoreResult)
  | [] => .ok []
  | target_ord :: rest =>
    if target_ord < target_vectors.length then
      if target_ord < target_corrections.length then
        match s.compute_quantized_score quantized_query query_corrections
            (target_vectors.getD target_ord [])
            (target_corrections.getD target_ord zeroCorrections)
            query_bits dimension centroid_dp none with
        | .panics => .panics
        | .errs => .errs
        | .ok result =>
          match batchFallback s quantized_query query_corrections target_vectors
              target_corrections query_bits dimension centroid_dp rest with
          | .panics => .panics
          | .errs => .errs
          | .ok results => .ok (result :: results)
      else .panics
    else .panics

/-- `compute_batch_quantized_scores`: 4-bit queries use the packed four-bit
batch kernel, 1-bit queries pack the query and use the one-bit batch kernel,
and any other bit width falls back to the single-pair path per ordinal.  In
the two batch paths `target_corrections[i]` is indexed by batch-local position
and panics when the corrections list is shorter than the distance list. -/
def BinaryQuantizedScorer.compute_batch_quantized_scores (s : BinaryQuantizedScorer)
    (quantized_query : List Nat) (query_corrections : QuantizationResult)
    (target_vectors : List (List Nat)) (target_corrections : List QuantizationResult)
    (target_ords : List Nat) (query_bits dimension : Nat) (centroid_dp : ℚ) :
    RRes (List QuantizedScoreResult) :=
  if query_bits = 4 then
    let packed_vector_size := (dimension + 7) / 8
    match create_direct_packed_buffer target_vectors target_ords packed_vector_size with
    | .panics => .panics
    | .errs => .errs
    | .ok direct_packed_buffer =>
      match compute_batch_four_bit_dot_product_direct_packed quantized_query
          direct_packed_buffer target_ords.length dimension with
      | .panics => .panics
      | .errs => .errs
      | .ok qc_dists =>
        if qc_dists.length ≤ target_corrections.length then
          .ok (qc_dists.enum.map (fun p =>
            let index_corrections := target_corrections.getD p.1 zeroCorrections
            { score := s.compute_four_bit_similarity_score p.2 query_corrections
                index_corrections dimension centroid_dp,
              bit_dot_product := p.2,
              query_corrections := query_corrections,
              index_corrections := index_corrections }))
        else .panics
  else if query_bits = 1 then
    let packed_query_size := (dimension + 7) / 8
    match pack_as_binary quantized_query (List.replicate packed_query_size 0) with
    | .panics => .panics
    | .errs => .errs
    | .ok packed_query =>
      match create_direct_packed_buffer target_vectors target_ords packed_query_size with
      | .panics => .panics
      | .errs => .errs
      | .ok direct_packed_buffer =>
        match compute_batch_one_bit_dot_product_direct_packed packed_query
            direct_packed_buffer target_ords.length packed_query_size with
        | .panics => .panics
        | .errs => .errs
        | .ok qc_dists =>
          if qc_dists.length ≤ target_corrections.length then
            .ok (qc_dists.enum.map (fun p =>
              let index_corrections := target_corrections.getD p.1 zeroCorrections
              { score := s.compute_one_bit_similarity_score p.2 query_corrections
                  index_corrections dimension centroid_dp,
                bit_dot_product := p.2,
                query_corrections := query_corrections,
                index_corrections := index_corrections }))
          else .panics
  else
    batchFallback s quantized_query query_corrections target_vectors
      target_corrections query_bits dimension centroid_dp target_ords

/-! ## vector_utils.rs -/

def compute_vector_magnitude (fsqrt : ℚ → ℚ) (vector : List ℚ) : ℚ :=
  fsqrt ((vector.map (fun v => v * v)).sum)

def normalize_vector (fsqrt : ℚ → ℚ) (vector : List ℚ) : List ℚ :=
  let magnitude := compute_vector_magnitude fsqrt vector
  if magnitude > 0 then vector.map (fun v => v / magnitude) else vector

/-- `compute_centroid`: errors on an empty collection; `vector[i]` for a later
vector shorter than the first vector's dimension panics. -/
def compute_centroid (vectors : List (List ℚ)) : RRes (List ℚ) :=
  match vectors with
  | [] => .errs
  | first_vector :: rest =>
    let dimension := first_vector.length
    if rest.all (fun v => decide (dimension ≤ v.length)) then
      .ok ((List.range dimension).map (fun i =>
        (first_vector.getD i 0 + (rest.map (fun v => v.getD i 0)).sum) /
          (vectors.length : ℚ)))
    else .panics

/-! ## quantized_index.rs -/

structure QuantizedVectorValuesImpl where
  vectors : List (List Nat)
  unpacked_vectors : List (List Nat)
  corrections : List QuantizationResult
  centroid : List ℚ
  dimension : Nat
deriving DecidableEq, Repr

def QuantizedVectorValuesImpl.new (vectors unpacked_vectors : List (List Nat))
    (corrections : List QuantizationResult) (centroid : List ℚ) :
    QuantizedVectorValuesImpl :=
  ⟨vectors, unpacked_vectors, corrections, centroid, centroid.length⟩

def QuantizedVectorValuesImpl.size (qv : QuantizedVectorValuesImpl) : Nat :=
  qv.vectors.length

def QuantizedVectorValuesImpl.get_centroid_dp (qv : QuantizedVectorValuesImpl)
    (query_vector : Option (List ℚ)) : ℚ :=
  match query_vector with
  | some qvec => compute_dot_product qvec qv.centroid
  | none => compute_dot_product qv.centroid qv.centroid

structure QueryResult where
  index : Nat
  score : ℚ
  original_score : Option ℚ
deriving DecidableEq, Repr

structure QuantizedIndexConfig where
  query_bits : Nat
  index_bits : Nat
  similarity_function : SimilarityFunction
  lambda : Option ℚ
  iters : Option Nat
deriving DecidableEq, Repr

def QuantizedIndexConfig.default : QuantizedIndexConfig :=
  ⟨QUERY_BITS, INDEX_BITS, .Cosine, none, none⟩

structure QuantizedIndex where
  config : QuantizedIndexConfig
  quantized_vectors : Option QuantizedVectorValuesImpl
deriving DecidableEq, Repr

def QuantizedIndex.quantizer (st : QuantizedIndex) : OptimizedScalarQuantizer :=
  OptimizedScalarQuantizer.new st.config.lambda st.config.iters
    (some st.config.similarity_function)

def QuantizedIndex.scorer (st : QuantizedIndex) : BinaryQuantizedScorer :=
  ⟨st.config.similarity_function⟩

def QuantizedIndex.new (config : QuantizedIndexConfig) : RRes QuantizedIndex :=
  if config.query_bits < 1 ∨ config.query_bits > 8 then .errs
  else if config.index_bits < 1 ∨ config.index_bits > 8 then .errs
  else .ok ⟨config, none⟩

/-- The per-vector quantize-then-pack loop of `build_index`, accumulating the
stored (packed when `index_bits = 1`) vectors, the unpacked vectors and the
corrections in input order. -/
def buildEntries (quantizer : OptimizedScalarQuantizer) (fsqrt : ℚ → ℚ)
    (index_bits dimension : Nat) (centroid : List ℚ) :
    List (List ℚ) → RRes (List (List Nat) × List (List Nat) × List QuantizationResult)
  | [] => .ok ([], [], [])
  | vector :: rest =>
    match quantizer.scalar_quantize fsqrt vector dimension index_bits centroid with
    | .panics => .panics
    | .errs => .errs
    | .ok (quantized_vector, correction) =>
      let packedRes : RRes (List Nat × List Nat) :=
        if index_bits = 1 then
          let packed_size := (dimension + 7) / 8
          match pack_as_binary quantized_vector (List.replicate packed_size 0) with
          | .panics => .panics
          | .errs => .errs
          | .ok packed_vector => .ok (packed_vector, quantized_vector)
        else .ok (quantized_vector, quantized_vector)
      match packedRes with
      | .panics => .panics
      | .errs => .errs
      | .ok stored =>
        match buildEntries quantizer fsqrt index_bits dimension centroid rest with
        | .panics => .panics
        | .errs => .errs
        | .ok (qvs, uvs, cs) => .ok (stored.1 :: qvs, stored.2 :: uvs, correction :: cs)

/-- `build_index`.  The Rust method mutates `self.quantized_vectors` on
success and returns a borrowed view; the model returns the updated index
state.  The per-component `is_finite` validation cannot fail in the rational
model (every `ℚ` is a finite value), so it has no branch here. -/
def QuantizedIndex.build_index (fsqrt : ℚ → ℚ) (st : QuantizedIndex)
    (vectors : List (List ℚ)) : RRes QuantizedIndex :=
  if vectors = [] then .errs
  else
    let processed_vectors :=
      if st.config.similarity_function = .Cosine then
        vectors.map (normalize_vector fsqrt)
      else vectors
    let dimension := (processed_vectors.headD []).length
    if ¬ processed_vectors.all (fun v => decide (v.length = dimension)) then .errs
    else
      match compute_centroid processed_vectors with
      | .panics => .panics
      | .errs => .errs
      | .ok centroid =>
        match buildEntries st.quantizer fsqrt st.config.index_bits dimension centroid
            processed_vectors with
        | .panics => .panics
        | .errs => .errs
        | .ok entries =>
          .ok ⟨st.config,
            some (QuantizedVectorValuesImpl.new entries.1 entries.2.1 entries.2.2 centroid)⟩

/-- `quantize_query_vector`.  The final `if query_bits == 1` in the Rust code
returns the quantized query unchanged in both branches. -/
def QuantizedIndex.quantize_query_vector (fsqrt : ℚ → ℚ) (st : QuantizedIndex)
    (query_vector centroid : List ℚ) : RRes (List Nat × QuantizationResult) :=
  let processed_query_vector :=
    if st.config.similarity_function = .Cosine then normalize_vector fsqrt query_vector
    else query_vector
  let dimension := processed_query_vector.length
  match st.quantizer.scalar_quantize fsqrt processed_query_vector dimension
      st.config.query_bits centroid with
  | .panics => .panics
  | .errs => .errs
  | .ok res => .ok res

/-- The `for batch_start in (0..vector_count).step_by(batch_size)` loop of
`search_nearest_neighbors`, one recursion step per batch start.  Assembling a
batch reads `vectors[idx]` / `unpacked_vectors[idx]` / `corrections[idx]` for
each global ordinal of the batch, which panics out of range. -/
def searchBatches (s : BinaryQuantizedScorer) (qv : QuantizedVectorValuesImpl)
    (index_bits query_bits : Nat) (quantized_query : List Nat)
    (query_corrections : QuantizationResult) (centroid_dp : ℚ) :
    List Nat → RRes (List (Nat × ℚ))
  | [] => .ok []
  | batch_start :: more =>
    let vector_count := qv.vectors.length
    let batch_end := min (batch_start + 1000) vector_count
    let batch_indices := (List.range (batch_end - batch_start)).map (batch_start + ·)
    let bvRes : RRes (List (List Nat)) :=
      if index_bits = 1 then
        if batch_indices.all (fun i => decide (i < qv.vectors.length)) then
          .ok (batch_indices.map (fun i => qv.vectors.getD i []))
        else .panics
      else
        if batch_indices.all (fun i => decide (i < qv.unpacked_vectors.length)) then
          .ok (batch_indices.map (fun i => qv.unpacked_vectors.getD i []))
        else .panics
    match bvRes with
    | .panics => .panics
    | .errs => .errs
    | .ok batch_vectors =>
      let bcRes : RRes (List QuantizationResult) :=
        if batch_indices.all (fun i => decide (i < qv.corrections.length)) then
          .ok (batch_indices.map (fun i => qv.corrections.getD i zeroCorrections))
        else .panics
      match bcRes with
      | .panics => .panics
      | .errs => .errs
      | .ok batch_corrections =>
        match s.compute_batch_quantized_scores quantized_query query_corrections
            batch_vectors batch_corrections batch_indices query_bits qv.dimension
            centroid_dp with
        | .panics => .panics
        | .errs => .errs
        | .ok batch_results =>
          match searchBatches s qv index_bits query_bits quantized_query
              query_corrections centroid_dp more with
          | .panics => .panics
          | .errs => .errs
          | .ok restPairs =>
            .ok ((batch_results.enum.map (fun p => (batch_start + p.1, p.2.score))) ++
              restPairs)

/-- `search_nearest_neighbors`.  The descending sort uses
`b.partial_cmp(&a).unwrap_or(Equal)`; `ℚ` is totally ordered, so the model
sorts (stably) by `fun x y => y.score ≤ x.score`. -/
def QuantizedIndex.search_nearest_neighbors (fsqrt : ℚ → ℚ) (st : QuantizedIndex)
    (query_vector : List ℚ) (k : Nat) : RRes (List QueryResult) :=
  match st.quantized_vectors with
  | none => .errs
  | some quantized_vectors =>
    if query_vector = [] then .errs
    else if k = 0 then .ok []
    else if query_vector.length ≠ quantized_vectors.dimension then .errs
    else
      let centroid := quantized_vectors.centroid
      match st.quantize_query_vector fsqrt query_vector centroid with
      | .panics => .panics
      | .errs => .errs
      | .ok qres =>
        let vector_count := quantized_vectors.size
        let kk := min k vector_count
        let starts := (List.range ((vector_count + 999) / 1000)).map (· * 1000)
        match searchBatches st.scorer quantized_vectors st.config.index_bits
            st.config.query_bits qres.1 qres.2
            (quantized_vectors.get_centroid_dp (some query_vector)) starts with
        | .panics => .panics
        | .errs => .errs
        | .ok all_results =>
          let sorted := all_results.mergeSort (fun x y => decide (y.2 ≤ x.2))
          .ok ((sorted.take kk).map (fun p => ⟨p.1, p.2, none⟩))

/-- Variant of `search_nearest_neighbors` that receives the centroid dot
product as an explicit argument instead of computing it inside; used to state
which query vector the dot product passed to the scorer is derived from. -/
def QuantizedIndex.search_with_centroid_dp (fsqrt : ℚ → ℚ) (st : QuantizedIndex)
    (query_vector : List ℚ) (k : Nat) (centroid_dp : ℚ) : RRes (List QueryResult) :=
  match st.quantized_vectors with
  | none => .errs
  | some quantized_vectors =>
    if query_vector = [] then .errs
    else if k = 0 then .ok []
    else if query_vector.length ≠ quantized_vectors.dimension then .errs
    else
      let centroid := quantized_vectors.centroid
      match st.quantize_query_vector fsqrt query_vector centroid with
      | .panics => .panics
      | .errs => .errs
      | .ok qres =>
        let vector_count := quantized_vectors.size
        let kk := min k vector_count
        let starts := (List.range ((vector_count + 999) / 1000)).map (· * 1000)
        match searchBatches st.scorer quantized_vectors st.config.index_bits
            st.config.query_bits qres.1 qres.2 centroid_dp starts with
        | .panics => .panics
        | .errs => .errs
        | .ok all_results =>
          let sorted := all_results.mergeSort (fun x y => decide (y.2 ≤ x.2))
          .ok ((sorted.take kk).map (fun p => ⟨p.1, p.2, none⟩))

/-- The operations available on one `QuantizedIndex` instance after
construction. -/
inductive IndexOp where
  | buildOp (vectors : List (List ℚ))
  | searchOp (query_vector : List ℚ) (k : Nat)

/-- State transition of one index instance under one operation.
`build_index` takes `&mut self` and assigns `self.quantized_vectors` only on
its success path, so a failed build leaves the state unchanged;
`search_nearest_neighbors` takes `&self` (no interior mutability anywhere in
the struct), so it cannot change the state. -/
def stepIndex (fsqrt : ℚ → ℚ) (st : QuantizedIndex) : IndexOp → QuantizedIndex
  | .buildOp vectors =>
    match st.build_index fsqrt vectors with
    | .ok st2 => st2
    | _ => st
  | .searchOp _ _ => st

/-! ## Concrete objects used by counterexamples and witnesses -/

/-- Stand-in for `f32::sqrt` in concrete runs.  Every concrete run below only
ever applies it to `0` (centered data whose variance and magnitude are zero),
where it agrees with the true square root. -/
def fsqrt0 : ℚ → ℚ := fun _ => 0

/-- A config with the default bit widths but the Euclidean metric (avoids
query/corpus normalization in concrete runs). -/
def euclidConfig : QuantizedIndexConfig := ⟨4, 1, .Euclidean, none, none⟩

def idxE : QuantizedIndex := ⟨euclidConfig, none⟩

/-- A built corpus view holding 1001 entries of dimension 1 (`index_bits = 1`
packed form: one byte per vector), as `build_index` lays it out for a corpus
of 1001 copies of the same vector. -/
def implC1 : QuantizedVectorValuesImpl :=
  QuantizedVectorValuesImpl.new (List.replicate 1001 [0]) (List.replicate 1001 [0])
    (List.replicate 1001 zeroCorrections) [0]

def stC1 : QuantizedIndex := ⟨euclidConfig, some implC1⟩

/-- An index built (through `build_index` itself) from the one-vector corpus
`[[1, 1]]` under the Euclidean metric; its dimension is 2. -/
def stC9 : QuantizedIndex := stepIndex fsqrt0 idxE (.buildOp [[1, 1]])

/-! ## Generic helper lemmas -/

theorem byteBit_eq_testBit (b j : Nat) : byteBit b j = if b.testBit j then 1 else 0 := by
  simp only [byteBit, Nat.and_one_is_mod, Nat.testBit_to_div_mod, Nat.shiftRight_eq_div_pow]
  rcases Nat.mod_two_eq_zero_or_one (b / 2 ^ j) with h | h <;> simp [h]

theorem byteBit_le_one (b j : Nat) : byteBit b j ≤ 1 := by
  rw [byteBit_eq_testBit]
  split <;> omega

theorem byteBit_xor (x y j : Nat) : byteBit (x ^^^ y) j = (byteBit x j) ^^^ (byteBit y j) := by
  simp only [byteBit_eq_testBit, Nat.testBit_xor]
  rcases hx : x.testBit j <;> rcases hy : y.testBit j <;> simp

/-! ## C2 -/

/-- C2 counterexample: on the packed buffers `q = [0]`, `d = [0]` the packed
bitwise kernel returns 8 while the naive dot product of the corresponding
unpacked 0/1 arrays (eight zeros each) returns 0, so the two kernels do not
agree. -/
theorem c2_counterexample :
    compute_packed_bit_dot_product [0] [0] = RRes.ok 8 ∧
    compute_quantized_dot_product (unpackBits [0]) (unpackBits [0]) = RRes.ok 0 ∧
    (8 : Int) ≠ (0 : Int) := by
  refine ⟨by decide, by decide, by decide⟩

theorem pm1_term (a b : Nat) (ha : a ≤ 1) (hb : b ≤ 1) :
    (2 * (a : Int) - 1) * (2 * (b : Int) - 1) = 1 - 2 * ((a ^^^ b : Nat) : Int) := by
  interval_cases a <;> interval_cases b <;> decide

theorem byte_pm1 (x y : Nat) :
    (((unpackByte x).zip (unpackByte y)).map
        (fun p => (2 * (p.1 : Int) - 1) * (2 * (p.2 : Int) - 1))).sum
      = 8 - 2 * (count_ones8 (x ^^^ y) : Nat) := by
  have hr : List.range 8 = [0, 1, 2, 3, 4, 5, 6, 7] := rfl
  simp only [unpackByte, count_ones8, hr, List.zip_cons_cons, List.zip_nil_right,
    List.map_cons, List.map_nil, List.sum_cons, List.sum_nil]
  rw [pm1_term _ _ (byteBit_le_one x 7) (byteBit_le_one y 7),
    pm1_term _ _ (byteBit_le_one x 6) (byteBit_le_one y 6),
    pm1_term _ _ (byteBit_le_one x 5) (byteBit_le_one y 5),
    pm1_term _ _ (byteBit_le_one x 4) (byteBit_le_one y 4),
    pm1_term _ _ (byteBit_le_one x 3) (byteBit_le_one y 3),
    pm1_term _ _ (byteBit_le_one x 2) (byteBit_le_one y 2),
    pm1_term _ _ (byteBit_le_one x 1) (byteBit_le_one y 1),
    pm1_term _ _ (byteBit_le_one x 0) (byteBit_le_one y 0),
    byteBit_xor x y 0, byteBit_xor x y 1, byteBit_xor x y 2, byteBit_xor x y 3,
    byteBit_xor x y 4, byteBit_xor x y 5, byteBit_xor x y 6, byteBit_xor x y 7]
  push_cast
  ring

theorem packed_pm1_sum (q d : List Nat) (h : q.length = d.length) :
    (((unpackBits q).zip (unpackBits d)).map
        (fun p => (2 * (p.1 : Int) - 1) * (2 * (p.2 : Int) - 1))).sum
      = (q.length * 8 : Nat) -
        2 * (((q.zip d).map (fun p => count_ones8 (p.1 ^^^ p.2))).sum : Nat) := by
  induction q generalizing d with
  | nil =>
    cases d with
    | nil => simp [unpackBits]
    | cons y d' => simp at h
  | cons x q' ih =>
    cases d with
    | nil => simp at h
    | cons y d' =>
      have h' : q'.length = d'.length := by simpa using h
      have hlen : (unpackByte x).length = (unpackByte y).length := rfl
      simp only [unpackBits, List.flatMap_cons, List.zip_cons_cons, List.map_cons,
        List.sum_cons]
      rw [List.zip_append hlen, List.map_append, List.sum_append]
      have e1 : q'.flatMap unpackByte = unpackBits q' := rfl
      have e2 : d'.flatMap unpackByte = unpackBits d' := rfl
      rw [e1, e2, ih d' h']
      rw [byte_pm1 x y]
      push_cast [List.length_cons]
      ring

/-- C2: the claim that `compute_packed_bit_dot_product` agrees with the naive
0/1 dot product is false (see the counterexample); what the kernel computes is
the dot product of the ±1-mapped unpacked arrays, i.e. each unpacked bit `b`
contributes as `2*b - 1`.  Amended claim, proved: for equal-length packed
buffers the packed kernel returns exactly that ±1 dot product. -/
theorem c2_packed_dot_is_pm1_dot (q d : List Nat) (h : q.length = d.length) :
    compute_packed_bit_dot_product q d =
      RRes.ok ((((unpackBits q).zip (unpackBits d)).map
        (fun p => (2 * (p.1 : Int) - 1) * (2 * (p.2 : Int) - 1))).sum) := by
  rw [compute_packed_bit_dot_product, if_neg (by simp [h])]
  rw [packed_pm1_sum q d h]

/-- Witness for C2's amended theorem at a concrete input. -/
theorem c2_packed_dot_is_pm1_dot_witness :
    compute_packed_bit_dot_product [170, 15] [204, 51] =
      RRes.ok ((((unpackBits [170, 15]).zip (unpackBits [204, 51])).map
        (fun p => (2 * (p.1 : Int) - 1) * (2 * (p.2 : Int) - 1))).sum) :=
  c2_packed_dot_is_pm1_dot [170, 15] [204, 51] (by decide)

/-! ## C3 -/

/-- C3 counterexample: with query bit-width 2 and the non-empty target list
`[ord 0]` (target present, correction present), `compute_batch_quantized_scores`
returns the error propagated from the single-pair path, not `Ok` — the claimed
naive-fallback servicing does not happen. -/
theorem c3_counterexample :
    (⟨.Euclidean⟩ : BinaryQuantizedScorer).compute_batch_quantized_scores
      [0] zeroCorrections [[0]] [zeroCorrections] [0] 2 1 0 = RRes.errs := by
  decide

/-- C3 amended: for every query bit-width other than 1 and 4 and every
non-empty target-ordinal list whose head ordinal is in range of both the
target-vector and the correction lists, `compute_batch_quantized_scores`
returns the unsupported-configuration error (an `Err`, not `Ok` and not a
panic): the fallback loop's first call into the single-pair path already
rejects the bit width and `?` propagates it. -/
theorem c3_batch_other_bits_errs (s : BinaryQuantizedScorer) (qq : List Nat)
    (qc : QuantizationResult) (tv : List (List Nat)) (tc : List QuantizationResult)
    (o : Nat) (rest : List Nat) (query_bits dimension : Nat) (cdp : ℚ)
    (h1 : query_bits ≠ 1) (h4 : query_bits ≠ 4)
    (hv : o < tv.length) (hc : o < tc.length) :
    s.compute_batch_quantized_scores qq qc tv tc (o :: rest) query_bits dimension cdp =
      RRes.errs := by
  rw [BinaryQuantizedScorer.compute_batch_quantized_scores, if_neg h4, if_neg h1]
  rw [batchFallback, if_pos hv, if_pos hc]
  rw [BinaryQuantizedScorer.compute_quantized_score, if_neg h1, if_neg h4]

/-- Witness for C3's amended theorem at a concrete input (bit width 3). -/
theorem c3_batch_other_bits_errs_witness :
    (⟨.Cosine⟩ : BinaryQuantizedScorer).compute_batch_quantized_scores
      [1, 1] zeroCorrections [[1, 0], [0, 1]] [zeroCorrections, zeroCorrections]
      [1, 0] 3 2 0 = RRes.errs :=
  c3_batch_other_bits_errs _ _ _ _ _ _ _ _ _ _ (by decide) (by decide)
    (by decide) (by decide)

/-! ## C8 -/

theorem pack8_eval (b0 b1 b2 b3 b4 b5 b6 b7 : Nat)
    (h0 : b0 < 2) (h1 : b1 < 2) (h2 : b2 < 2) (h3 : b3 < 2)
    (h4 : b4 < 2) (h5 : b5 < 2) (h6 : b6 < 2) (h7 : b7 < 2) :
    packBits [b0, b1, b2, b3, b4, b5, b6, b7] 7 =
      RRes.ok (b0 * 128 + b1 * 64 + b2 * 32 + b3 * 16 + b4 * 8 + b5 * 4 + b6 * 2 + b7) ∧
    unpackByte (b0 * 128 + b1 * 64 + b2 * 32 + b3 * 16 + b4 * 8 + b5 * 4 + b6 * 2 + b7) =
      [b0, b1, b2, b3, b4, b5, b6, b7] := by
  interval_cases b0 <;> interval_cases b1 <;> interval_cases b2 <;> interval_cases b3 <;>
    interval_cases b4 <;> interval_cases b5 <;> interval_cases b6 <;> interval_cases b7 <;>
    exact ⟨rfl, rfl⟩

theorem pack_step (b0 b1 b2 b3 b4 b5 b6 b7 : Nat) (rest packed : List Nat)
    (h0 : b0 < 2) (h1 : b1 < 2) (h2 : b2 < 2) (h3 : b3 < 2)
    (h4 : b4 < 2) (h5 : b5 < 2) (h6 : b6 < 2) (h7 : b7 < 2)
    (hrec : ∃ p, pack_as_binary rest packed = RRes.ok p ∧ unpackBits p = rest) :
    ∃ p, pack_as_binary (b0 :: b1 :: b2 :: b3 :: b4 :: b5 :: b6 :: b7 :: rest) (0 :: packed) =
        RRes.ok p ∧
      unpackBits p = b0 :: b1 :: b2 :: b3 :: b4 :: b5 :: b6 :: b7 :: rest := by
  obtain ⟨p', hp1, hp2⟩ := hrec
  obtain ⟨hbyte, hunp⟩ := pack8_eval b0 b1 b2 b3 b4 b5 b6 b7 h0 h1 h2 h3 h4 h5 h6 h7
  refine ⟨(b0 * 128 + b1 * 64 + b2 * 32 + b3 * 16 + b4 * 8 + b5 * 4 + b6 * 2 + b7) :: p',
    ?_, ?_⟩
  · simp only [pack_as_binary, hbyte, hp1]
  · show unpackByte _ ++ unpackBits p' = _
    rw [hunp, hp2]
    rfl

/-- C8: for every 0/1 array of length `8 * n` and a destination of `n` zero
bytes, `pack_as_binary` succeeds, and expanding each output byte back into 8
bits MSB-first (bit 7 of each byte = component 0 of its 8-group) reproduces
the original array exactly. -/
theorem c8_pack_as_binary_roundtrip (v : List Nat) (n : Nat)
    (hlen : v.length = 8 * n) (hb : ∀ x ∈ v, x < 2) :
    ∃ p, pack_as_binary v (List.replicate n 0) = RRes.ok p ∧ unpackBits p = v := by
  induction n generalizing v with
  | zero =>
    have : v = [] := List.eq_nil_of_length_eq_zero (by omega)
    subst this
    exact ⟨[], rfl, rfl⟩
  | succ m ih =>
    cases v with
    | nil => simp at hlen
    | cons b0 t0 =>
    cases t0 with
    | nil => simp at hlen; omega
    | cons b1 t1 =>
    cases t1 with
    | nil => simp at hlen; omega
    | cons b2 t2 =>
    cases t2 with
    | nil => simp at hlen; omega
    | cons b3 t3 =>
    cases t3 with
    | nil => simp at hlen; omega
    | cons b4 t4 =>
    cases t4 with
    | nil => simp at hlen; omega
    | cons b5 t5 =>
    cases t5 with
    | nil => simp at hlen; omega
    | cons b6 t6 =>
    cases t6 with
    | nil => simp at hlen; omega
    | cons b7 rest =>
    have hrest : rest.length = 8 * m := by
      simp only [List.length_cons] at hlen
      omega
    have hrec := ih rest hrest (fun x hx => hb x (by simp [hx]))
    have hrepl : List.replicate (m + 1) 0 = 0 :: List.replicate m 0 := rfl
    rw [hrepl]
    exact pack_step b0 b1 b2 b3 b4 b5 b6 b7 rest (List.replicate m 0)
      (hb b0 (by simp)) (hb b1 (by simp)) (hb b2 (by simp)) (hb b3 (by simp))
      (hb b4 (by simp)) (hb b5 (by simp)) (hb b6 (by simp)) (hb b7 (by simp)) hrec

/-- Witness for C8 at a concrete input. -/
theorem c8_pack_as_binary_roundtrip_witness :
    ∃ p, pack_as_binary [1, 0, 1, 0, 1, 0, 1, 0, 0, 0, 0, 0, 0, 0, 1, 1]
        (List.replicate 2 0) = RRes.ok p ∧
      unpackBits p = [1, 0, 1, 0, 1, 0, 1, 0, 0, 0, 0, 0, 0, 0, 1, 1] :=
  c8_pack_as_binary_roundtrip _ 2 (by decide) (by decide)

/-! ## C5 helper lemmas -/

theorem sum_range_eight_mul (f : Nat → Int) (m : Nat) :
    ((List.range (8 * m)).map f).sum =
      ((List.range m).map (fun j =>
        f (8 * j) + f (8 * j + 1) + f (8 * j + 2) + f (8 * j + 3) +
        f (8 * j + 4) + f (8 * j + 5) + f (8 * j + 6) + f (8 * j + 7))).sum := by
  induction m with
  | zero => simp
  | succ k ih =>
    rw [show 8 * (k + 1) = 8 * k + 8 from by ring, List.range_add, List.map_append,
      List.sum_append, ih]
    have h8 : List.range 8 = [0, 1, 2, 3, 4, 5, 6, 7] := rfl
    rw [h8, List.range_succ, List.map_append, List.sum_append]
    simp
    ring

theorem fourBitDotOne_eq (qv buf : List Nat) (off D : Nat) :
    fourBitDotOne qv buf off D =
      ((List.range D).map (fun dim =>
        (qv.getD dim 0 : Int) *
          (byteBit (buf.getD (off + dim / 8) 0) (7 - dim % 8) : Int))).sum := by
  have hsplit : 8 * (D / 8) + D % 8 = D := Nat.div_add_mod D 8
  conv_rhs => rw [← hsplit, List.range_add, List.map_append, List.sum_append,
    List.map_map]
  rw [sum_range_eight_mul]
  unfold fourBitDotOne
  dsimp only
  congr 1
  · -- main loop: full bytes
    refine congrArg _ (List.map_congr_left ?_)
    intro j _
    have d0 : (8 * j) / 8 = j := by omega
    have d1 : (8 * j + 1) / 8 = j := by omega
    have d2 : (8 * j + 2) / 8 = j := by omega
    have d3 : (8 * j + 3) / 8 = j := by omega
    have d4 : (8 * j + 4) / 8 = j := by omega
    have d5 : (8 * j + 5) / 8 = j := by omega
    have d6 : (8 * j + 6) / 8 = j := by omega
    have d7 : (8 * j + 7) / 8 = j := by omega
    have m0 : (8 * j) % 8 = 0 := by omega
    have m1 : (8 * j + 1) % 8 = 1 := by omega
    have m2 : (8 * j + 2) % 8 = 2 := by omega
    have m3 : (8 * j + 3) % 8 = 3 := by omega
    have m4 : (8 * j + 4) % 8 = 4 := by omega
    have m5 : (8 * j + 5) % 8 = 5 := by omega
    have m6 : (8 * j + 6) % 8 = 6 := by omega
    have m7 : (8 * j + 7) % 8 = 7 := by omega
    simp only [d0, d1, d2, d3, d4, d5, d6, d7, m0, m1, m2, m3, m4, m5, m6, m7,
      Nat.mul_comm j 8]
  · -- trailing partial byte
    rcases Nat.eq_zero_or_pos (D % 8) with hz | hp
    · rw [hz]
      have : ¬ (D / 8 * 8 < D) := by omega
      simp [this]
    · have hlt : D / 8 * 8 < D := by omega
      rw [if_pos hlt]
      have hrange : D - D / 8 * 8 = D % 8 := by omega
      rw [hrange]
      refine congrArg _ (List.map_congr_left ?_)
      intro t ht
      have ht8 : t < 8 := by
        have := List.mem_range.mp ht
        omega
      have hd : (8 * (D / 8) + t) / 8 = D / 8 := by omega
      have hm : (8 * (D / 8) + t) % 8 = t := by omega
      simp only [Function.comp, hd, hm, Nat.mul_comm (D / 8) 8]

theorem unpackBits_getD (bs : List Nat) (dim : Nat) (h : dim < 8 * bs.length) :
    (unpackBits bs).getD dim 0 = byteBit (bs.getD (dim / 8) 0) (7 - dim % 8) := by
  induction bs generalizing dim with
  | nil => simp at h
  | cons b rest ih =>
    by_cases hd : dim < 8
    · have hu : unpackBits (b :: rest) =
          byteBit b 7 :: byteBit b 6 :: byteBit b 5 :: byteBit b 4 :: byteBit b 3 ::
          byteBit b 2 :: byteBit b 1 :: byteBit b 0 :: unpackBits rest := rfl
      rw [hu]
      interval_cases dim <;> rfl
    · have h8 : 8 ≤ dim := by omega
      have hu : unpackBits (b :: rest) = unpackByte b ++ unpackBits rest := rfl
      have hlen : (unpackByte b).length = 8 := rfl
      rw [hu, List.getD_append_right _ _ _ _ (by rw [hlen]; exact h8), hlen]
      have hrest : dim - 8 < 8 * rest.length := by
        simp only [List.length_cons] at h
        omega
      rw [ih (dim - 8) hrest]
      have e1 : (dim - 8) / 8 = dim / 8 - 1 := by omega
      have e2 : (dim - 8) % 8 = dim % 8 := by omega
      have e3 : dim / 8 = (dim / 8 - 1) + 1 := by omega
      rw [e1, e2, e3, List.getD_cons_succ]
      have e4 : dim / 8 - 1 + 1 - 1 = dim / 8 - 1 := by omega
      rw [e4]

theorem zip_take_sum {M : Type} [AddCommMonoid M] (g : Nat → Nat → M) (A B : List Nat)
    (D : Nat) (hA : D ≤ A.length) (hB : D ≤ B.length) :
    (((A.take D).zip (B.take D)).map (fun p => g p.1 p.2)).sum =
      ((List.range D).map (fun i => g (A.getD i 0) (B.getD i 0))).sum := by
  induction D with
  | zero => simp
  | succ k ih =>
    have hA' : k ≤ A.length := by omega
    have hB' : k ≤ B.length := by omega
    have hAk : A.take (k + 1) = A.take k ++ [A.getD k 0] := by
      rw [List.take_succ, List.getElem?_eq_getElem (show k < A.length by omega),
        List.getD_eq_getElem A 0 (by omega)]
      rfl
    have hBk : B.take (k + 1) = B.take k ++ [B.getD k 0] := by
      rw [List.take_succ, List.getElem?_eq_getElem (show k < B.length by omega),
        List.getD_eq_getElem B 0 (by omega)]
      rfl
    have hlen : (A.take k).length = (B.take k).length := by
      simp [List.length_take]
      omega
    rw [List.range_succ, List.map_append, List.sum_append, ← ih hA' hB',
      hAk, hBk, List.zip_append hlen, List.map_append, List.sum_append]
    rfl

theorem sum_eight_sub_twice (c : Nat → Int) (n : Nat) :
    ((List.range n).map (fun j => 8 - 2 * c j)).sum =
      8 * n - 2 * ((List.range n).map c).sum := by
  induction n with
  | zero => simp
  | succ k ih =>
    rw [List.range_succ]
    simp [ih]
    ring

theorem getD_drop_take (buf : List Nat) (off pd j : Nat) (hj : j < pd)
    (hlen : off + pd ≤ buf.length) :
    ((buf.drop off).take pd).getD j 0 = buf.getD (off + j) 0 := by
  have h1 : j < ((buf.drop off).take pd).length := by
    simp only [List.length_take, List.length_drop]
    omega
  have h2 : off + j < buf.length := by omega
  rw [List.getD_eq_getElem _ _ h1, List.getD_eq_getElem _ _ h2,
    List.getElem_take, List.getElem_drop]

theorem length_drop_take (buf : List Nat) (off pd : Nat) (hlen : off + pd ≤ buf.length) :
    ((buf.drop off).take pd).length = pd := by
  simp only [List.length_take, List.length_drop]
  omega

theorem unpackBits_length (bs : List Nat) : (unpackBits bs).length = 8 * bs.length := by
  induction bs with
  | nil => rfl
  | cons b rest ih =>
    have hu : unpackBits (b :: rest) = unpackByte b ++ unpackBits rest := rfl
    rw [hu, List.length_append, ih]
    simp [unpackByte, List.length_cons]
    ring

/-- C5: per-target agreement of the two batched direct-packed kernels with the
corresponding single-pair kernels, for every dimension `D` (including `D` not
a multiple of 8).  First conjunct: the four-bit batch kernel yields, for each
target, the naive dot product (`compute_quantized_dot_product`) of the 4-bit
query with the target's unpacked 0/1 components.  Second conjunct: the one-bit
batch kernel yields, for each target, `compute_packed_bit_dot_product` of the
packed query against that target's packed slice of the contiguous buffer. -/
theorem c5_batch_kernels_match_single_pair :
    (∀ (qv buf : List Nat) (n D : Nat), D ≤ qv.length →
      n * ((D + 7) / 8) ≤ buf.length → ∀ i < n,
      ∃ l, compute_batch_four_bit_dot_product_direct_packed qv buf n D = RRes.ok l ∧
        compute_quantized_dot_product (qv.take D)
            ((unpackBits ((buf.drop (i * ((D + 7) / 8))).take ((D + 7) / 8))).take D) =
          RRes.ok (l.getD i 0)) ∧
    (∀ (q buf : List Nat) (n pd : Nat), pd ≤ q.length → n * pd ≤ buf.length → ∀ i < n,
      ∃ l, compute_batch_one_bit_dot_product_direct_packed q buf n pd = RRes.ok l ∧
        compute_packed_bit_dot_product (q.take pd) ((buf.drop (i * pd)).take pd) =
          RRes.ok (l.getD i 0)) := by
  constructor
  · -- four-bit kernel versus naive unpacked dot product
    intro qv buf n D hq hb i hi
    have hguard : n = 0 ∨ D = 0 ∨ (D ≤ qv.length ∧ n * ((D + 7) / 8) ≤ buf.length) :=
      Or.inr (Or.inr ⟨hq, hb⟩)
    refine ⟨(List.range n).map (fun t =>
      fourBitDotOne qv buf (t * ((D + 7) / 8)) D), ?_, ?_⟩
    · unfold compute_batch_four_bit_dot_product_direct_packed
      dsimp only
      rw [if_pos hguard]
    · have hgetD : ((List.range n).map (fun t =>
          fourBitDotOne qv buf (t * ((D + 7) / 8)) D)).getD i 0 =
          fourBitDotOne qv buf (i * ((D + 7) / 8)) D := by
        rw [List.getD_eq_getElem _ _ (by simp [hi] : i < ((List.range n).map _).length),
          List.getElem_map, List.getElem_range]
      rw [hgetD]
      have hslice : i * ((D + 7) / 8) + (D + 7) / 8 ≤ buf.length := by
        have : (i + 1) * ((D + 7) / 8) ≤ n * ((D + 7) / 8) :=
          Nat.mul_le_mul_right _ hi
        calc i * ((D + 7) / 8) + (D + 7) / 8 = (i + 1) * ((D + 7) / 8) := by ring
          _ ≤ n * ((D + 7) / 8) := this
          _ ≤ buf.length := hb
      have hslen : ((buf.drop (i * ((D + 7) / 8))).take ((D + 7) / 8)).length =
          (D + 7) / 8 := length_drop_take _ _ _ hslice
      have hub : D ≤ (unpackBits ((buf.drop (i * ((D + 7) / 8))).take ((D + 7) / 8))).length := by
        rw [unpackBits_length, hslen]
        omega
      have hql : (qv.take D).length = D := by
        simp [List.length_take]
        omega
      have hul : ((unpackBits ((buf.drop (i * ((D + 7) / 8))).take ((D + 7) / 8))).take D).length
          = D := by
        simp [List.length_take]
        omega
      unfold compute_quantized_dot_product
      rw [if_neg (by rw [hql, hul]; exact fun h => h rfl)]
      rw [zip_take_sum (fun a b => (a : Int) * (b : Int)) qv _ D hq hub]
      rw [fourBitDotOne_eq]
      refine congrArg RRes.ok (congrArg _ (List.map_congr_left ?_))
      intro dim hdim
      have hdimD : dim < D := List.mem_range.mp hdim
      have hdim8 : dim < 8 * ((buf.drop (i * ((D + 7) / 8))).take ((D + 7) / 8)).length := by
        rw [hslen]
        omega
      rw [unpackBits_getD _ dim hdim8]
      have hdiv : dim / 8 < (D + 7) / 8 := by omega
      rw [getD_drop_take buf _ _ _ hdiv hslice]
  · -- one-bit kernel versus single-pair packed kernel
    intro q buf n pd hq hb i hi
    have hguard : n = 0 ∨ pd = 0 ∨ (pd ≤ q.length ∧ n * pd ≤ buf.length) :=
      Or.inr (Or.inr ⟨hq, hb⟩)
    refine ⟨(List.range n).map (fun t =>
      ((List.range pd).map (fun j =>
        (8 - 2 * (count_ones8 ((q.getD j 0) ^^^ (buf.getD (t * pd + j) 0)) : Int) : Int))).sum),
      ?_, ?_⟩
    · unfold compute_batch_one_bit_dot_product_direct_packed
      rw [if_pos hguard]
    · have hslice : i * pd + pd ≤ buf.length := by
        have : (i + 1) * pd ≤ n * pd := Nat.mul_le_mul_right _ hi
        calc i * pd + pd = (i + 1) * pd := by ring
          _ ≤ n * pd := this
          _ ≤ buf.length := hb
      have hslen : ((buf.drop (i * pd)).take pd).length = pd := length_drop_take _ _ _ hslice
      have hql : (q.take pd).length = pd := by
        simp [List.length_take]
        omega
      have hgetD : ∀ L : List Int, L = (List.range n).map (fun t =>
          ((List.range pd).map (fun j =>
            (8 - 2 * (count_ones8 ((q.getD j 0) ^^^ (buf.getD (t * pd + j) 0)) : Int) : Int))).sum) →
          L.getD i 0 = ((List.range pd).map (fun j =>
            (8 - 2 * (count_ones8 ((q.getD j 0) ^^^ (buf.getD (i * pd + j) 0)) : Int) : Int))).sum := by
        intro L hL
        subst hL
        rw [List.getD_eq_getElem _ _ (by simp [hi] : i < ((List.range n).map _).length),
          List.getElem_map, List.getElem_range]
      rw [hgetD _ rfl]
      unfold compute_packed_bit_dot_product
      rw [if_neg (by rw [hql, hslen]; exact fun h => h rfl)]
      dsimp only
      rw [hql]
      have hdropB : pd ≤ (buf.drop (i * pd)).length := by
        rw [List.length_drop]
        omega
      rw [zip_take_sum (fun a b => count_ones8 (a ^^^ b)) q (buf.drop (i * pd)) pd hq hdropB]
      have hpoint : ∀ j ∈ List.range pd,
          count_ones8 ((q.getD j 0) ^^^ ((buf.drop (i * pd)).getD j 0)) =
          count_ones8 ((q.getD j 0) ^^^ (buf.getD (i * pd + j) 0)) := by
        intro j hj
        have hjpd : j < pd := List.mem_range.mp hj
        have hjd : j < (buf.drop (i * pd)).length := by omega
        rw [List.getD_eq_getElem _ _ hjd, List.getElem_drop,
          List.getD_eq_getElem _ _ (show i * pd + j < buf.length by omega)]
      rw [List.map_congr_left hpoint]
      rw [sum_eight_sub_twice (fun j =>
        (count_ones8 ((q.getD j 0) ^^^ (buf.getD (i * pd + j) 0)) : Int)) pd]
      simp [List.map_map, Function.comp_def]
      ring

/-- Witness for C5 at concrete inputs (dimension 3, not a multiple of 8, for
the four-bit kernel; two packed targets for the one-bit kernel). -/
theorem c5_batch_kernels_match_single_pair_witness :
    (∃ l, compute_batch_four_bit_dot_product_direct_packed [5, 3, 7] [160, 96] 2 3 =
        RRes.ok l ∧
      compute_quantized_dot_product ([5, 3, 7].take 3)
          ((unpackBits (([160, 96].drop (1 * ((3 + 7) / 8))).take ((3 + 7) / 8))).take 3) =
        RRes.ok (l.getD 1 0)) ∧
    (∃ l, compute_batch_one_bit_dot_product_direct_packed [170] [204, 51] 2 1 =
        RRes.ok l ∧
      compute_packed_bit_dot_product ([170].take 1) (([204, 51].drop (1 * 1)).take 1) =
        RRes.ok (l.getD 1 0)) :=
  ⟨c5_batch_kernels_match_single_pair.1 [5, 3, 7] [160, 96] 2 3 (by decide) (by decide)
      1 (by decide),
   c5_batch_kernels_match_single_pair.2 [170] [204, 51] 2 1 (by decide) (by decide)
      1 (by decide)⟩

/-! ## C6 -/

theorem rustAsU8_min_le (x : ℚ) (m : Nat) :
    rustAsU8 (min x (m : ℚ)) ≤ m := by
  unfold rustAsU8
  have h1 : ⌊min x (m : ℚ)⌋ ≤ (m : Int) := by
    calc ⌊min x (m : ℚ)⌋ ≤ ⌊(m : ℚ)⌋ := Int.floor_le_floor (min_le_right _ _)
      _ = (m : Int) := by exact_mod_cast Int.floor_natCast m
  calc (min 255 ⌊min x (m : ℚ)⌋).toNat ≤ ⌊min x (m : ℚ)⌋.toNat :=
        Int.toNat_le_toNat (min_le_right _ _)
    _ ≤ ((m : Int)).toNat := Int.toNat_le_toNat h1
    _ = m := Int.toNat_natCast m

theorem quantizeComponent_range (bits : Nat) (a b s xi : ℚ) :
    (bits = 1 → quantizeComponent bits a b s xi = 0 ∨ quantizeComponent bits a b s xi = 1) ∧
    (bits ≠ 1 → quantizeComponent bits a b s xi ≤ 2 ^ bits - 1) := by
  constructor
  · intro h1
    unfold quantizeComponent
    rw [if_pos h1]
    dsimp only
    split
    · right; rfl
    · left; rfl
  · intro h1
    unfold quantizeComponent
    rw [if_neg h1]
    exact rustAsU8_min_le _ _

/-- Inversion of the write stage: a successful `scalar_quantize_core` returns
the interval endpoints unchanged as `lower_interval`/`upper_interval`, and the
destination is the image of the centered vector under `quantizeComponent`. -/
theorem scalar_quantize_core_ok_inv (q : OptimizedScalarQuantizer) (bits : Nat)
    (interval : ℚ × ℚ) (W : List ℚ) (n2 cd : ℚ) (dest : List Nat)
    (res : QuantizationResult)
    (h : q.scalar_quantize_core bits interval W n2 cd = RRes.ok (dest, res)) :
    (∃ s, dest = W.map (quantizeComponent bits interval.1 interval.2 s)) ∧
    res.lower_interval = interval.1 ∧ res.upper_interval = interval.2 := by
  unfold OptimizedScalarQuantizer.scalar_quantize_core at h
  dsimp only at h
  split at h
  · exact RRes.noConfusion h
  injection h with hpair
  have hd := congrArg Prod.fst hpair
  have hr := congrArg Prod.snd hpair
  dsimp only at hd hr
  exact ⟨⟨_, hd.symm⟩, by rw [← hr], by rw [← hr]⟩

/-- Inversion of `scalar_quantize`: a success factors through a successful
initial interval, a successful interval optimization over the centered vector,
and a successful write stage. -/
theorem scalar_quantize_ok_inv (q : OptimizedScalarQuantizer) (fsqrt : ℚ → ℚ)
    (vector : List ℚ) (destLen bits : Nat) (centroid : List ℚ)
    (dest : List Nat) (res : QuantizationResult)
    (h : q.scalar_quantize fsqrt vector destLen bits centroid = RRes.ok (dest, res)) :
    ∃ (std mean cdot : ℚ) (intr0 interval : ℚ × ℚ),
      q.get_initial_interval bits std mean
          (((vector.zip centroid).map (fun p => p.1 - p.2)).foldl min f32MAX)
          (((vector.zip centroid).map (fun p => p.1 - p.2)).foldl max (-f32MAX)) =
        RRes.ok intr0 ∧
      q.optimize_intervals intr0 ((vector.zip centroid).map (fun p => p.1 - p.2))
          ((((vector.zip centroid).map (fun p => p.1 - p.2)).map (fun v => v * v)).sum)
          ((2 : Int) ^ bits) = RRes.ok interval ∧
      q.scalar_quantize_core bits interval
          ((vector.zip centroid).map (fun p => p.1 - p.2))
          ((((vector.zip centroid).map (fun p => p.1 - p.2)).map (fun v => v * v)).sum)
          cdot = RRes.ok (dest, res) := by
  unfold OptimizedScalarQuantizer.scalar_quantize at h
  dsimp only at h
  repeat' split at h
  all_goals try exact RRes.noConfusion h
  all_goals exact ⟨_, _, _, _, _, by assumption, by assumption, h⟩

/-- C6: every byte written by a successful `scalar_quantize` is in range: with
`bits = 1` each is 0 or 1; with `bits = b > 1` each is at most `2^b - 1`. -/
theorem c6_scalar_quantize_range (q : OptimizedScalarQuantizer) (fsqrt : ℚ → ℚ)
    (vector : List ℚ) (destLen bits : Nat) (centroid : List ℚ)
    (dest : List Nat) (res : QuantizationResult)
    (h : q.scalar_quantize fsqrt vector destLen bits centroid = RRes.ok (dest, res)) :
    (bits = 1 → ∀ v ∈ dest, v = 0 ∨ v = 1) ∧
    (1 < bits → ∀ v ∈ dest, v ≤ 2 ^ bits - 1) := by
  obtain ⟨std, mean, cdot, intr0, interval, _, _, hcore⟩ :=
    scalar_quantize_ok_inv q fsqrt vector destLen bits centroid dest res h
  obtain ⟨⟨s, hdest⟩, _, _⟩ :=
    scalar_quantize_core_ok_inv q bits interval _ _ cdot dest res hcore
  subst hdest
  refine ⟨fun hb1 v hv => ?_, fun hb v hv => ?_⟩ <;>
    obtain ⟨xi, _, hxi⟩ := List.mem_map.mp hv <;> rw [← hxi]
  · exact (quantizeComponent_range bits _ _ _ xi).1 hb1
  · exact (quantizeComponent_range bits _ _ _ xi).2 (by omega)

/-- Witness for C6: two concrete successful quantizations (bit widths 1
and 4) of the vector `[1]` against centroid `[0]`. -/
theorem c6_scalar_quantize_range_witness :
    (∀ v ∈ [1], v = 0 ∨ v = 1) ∧ (∀ v ∈ [0], v ≤ 2 ^ 4 - 1) :=
  ⟨(c6_scalar_quantize_range ⟨1/10, 0, .Euclidean⟩ fsqrt0 [1] 1 1 [0] [1] ⟨1, 1, 1, 1⟩
      (by with_unfolding_all decide)).1 rfl,
   (c6_scalar_quantize_range ⟨1/10, 0, .Euclidean⟩ fsqrt0 [1] 1 4 [0] [0] ⟨1, 1, 1, 0⟩
      (by with_unfolding_all decide)).2 (by decide)⟩

/-! ## C7 -/

/-- A successful `compute_loss` over a nonempty vector implies the interval is
ordered (otherwise the per-element `clamp` panics). -/
theorem compute_loss_ok_le (lambda : ℚ) (v : List ℚ) (intr : ℚ × ℚ) (p : Int)
    (n2 L : ℚ) (h : compute_loss lambda v intr p n2 = RRes.ok L) (hv : v ≠ []) :
    intr.1 ≤ intr.2 := by
  unfold compute_loss at h
  dsimp only at h
  split at h
  · exact RRes.noConfusion h
  · rename_i hcond
    by_contra hab
    exact hcond ⟨hv, hab⟩

/-- Every interval produced by the coordinate-descent loop from an ordered
interval is ordered: the early-return paths keep the current interval, and an
update is accepted only after `compute_loss` succeeded on it, which forces the
new interval to be ordered. -/
theorem optimize_loop_ok_ordered (lambda scale : ℚ) (v : List ℚ) (n2 : ℚ) (p : Int) :
    ∀ (iters : Nat) (intr : ℚ × ℚ) (loss : ℚ) (intr' : ℚ × ℚ), v ≠ [] →
      intr.1 ≤ intr.2 →
      optimize_loop lambda scale v n2 p iters intr loss = RRes.ok intr' →
      intr'.1 ≤ intr'.2 := by
  intro iters
  induction iters with
  | zero =>
    intro intr loss intr' _ hord h
    unfold optimize_loop at h
    injection h with h2
    rw [← h2]
    exact hord
  | succ k ih =>
    intro intr loss intr' hv hord h
    unfold optimize_loop at h
    dsimp only at h
    rw [if_neg (fun hc => hc.2 hord)] at h
    split at h
    · injection h with h2
      rw [← h2]
      exact hord
    split at h
    · injection h with h2
      rw [← h2]
      exact hord
    split at h
    · exact RRes.noConfusion h
    · exact RRes.noConfusion h
    rename_i new_loss heq
    split at h
    · injection h with h2
      rw [← h2]
      exact hord
    · exact ih _ _ _ hv (compute_loss_ok_le lambda v _ p n2 new_loss heq hv) h

/-- A successful `optimize_intervals` over a nonempty vector returns an
ordered interval. -/
theorem optimize_intervals_ok_ordered (q : OptimizedScalarQuantizer)
    (intr0 : ℚ × ℚ) (v : List ℚ) (n2 : ℚ) (p : Int) (intr' : ℚ × ℚ)
    (hv : v ≠ []) (h : q.optimize_intervals intr0 v n2 p = RRes.ok intr') :
    intr'.1 ≤ intr'.2 := by
  unfold OptimizedScalarQuantizer.optimize_intervals at h
  split at h
  · exact RRes.noConfusion h
  · exact RRes.noConfusion h
  rename_i initial_loss heq
  have hord0 : intr0.1 ≤ intr0.2 := compute_loss_ok_le q.lambda v intr0 p n2 initial_loss heq hv
  split at h
  · injection h with h2
    rw [← h2]
    exact hord0
  · exact optimize_loop_ok_ordered q.lambda _ v n2 p q.iters intr0 initial_loss intr' hv hord0 h

/-- A successful `get_initial_interval` implies its clamp range was ordered. -/
theorem get_initial_interval_ok_min_le_max (q : OptimizedScalarQuantizer)
    (bits : Nat) (std mean minv maxv : ℚ) (intr : ℚ × ℚ)
    (h : q.get_initial_interval bits std mean minv maxv = RRes.ok intr) :
    minv ≤ maxv := by
  unfold OptimizedScalarQuantizer.get_initial_interval rustClamp at h
  dsimp only at h
  split at h
  · exact RRes.noConfusion h
  split at h
  · exact RRes.noConfusion h
  split at h
  · exact RRes.noConfusion h
  · exact RRes.noConfusion h
  rename_i lo heq1
  split at h
  · exact RRes.noConfusion h
  · exact RRes.noConfusion h
  split at heq1
  · assumption
  · exact RRes.noConfusion heq1

/-- C7: every `QuantizationResult` returned by a successful `scalar_quantize`
satisfies `lower_interval ≤ upper_interval`: the initial MSE-grid interval is
ordered on the success path, and every update accepted by the
coordinate-descent optimizer preserves the ordering. -/
theorem c7_interval_ordered (q : OptimizedScalarQuantizer) (fsqrt : ℚ → ℚ)
    (vector : List ℚ) (destLen bits : Nat) (centroid : List ℚ)
    (dest : List Nat) (res : QuantizationResult)
    (h : q.scalar_quantize fsqrt vector destLen bits centroid = RRes.ok (dest, res)) :
    res.lower_interval ≤ res.upper_interval := by
  obtain ⟨std, mean, cdot, intr0, interval, hgi, hopt, hcore⟩ :=
    scalar_quantize_ok_inv q fsqrt vector destLen bits centroid dest res h
  obtain ⟨_, hlo, hhi⟩ :=
    scalar_quantize_core_ok_inv q bits interval _ _ cdot dest res hcore
  rw [hlo, hhi]
  have hminmax := get_initial_interval_ok_min_le_max q bits std mean _ _ intr0 hgi
  have hWne : ((vector.zip centroid).map (fun p => p.1 - p.2)) ≠ [] := by
    intro hW
    rw [hW] at hminmax
    simp only [List.foldl_nil] at hminmax
    have : ¬ (f32MAX ≤ -f32MAX) := by norm_num [f32MAX]
    exact this hminmax
  exact optimize_intervals_ok_ordered q intr0 _ _ _ interval hWne hopt

/-- Witness for C7: a concrete successful quantization, with the success
hypothesis discharged by evaluation. -/
theorem c7_interval_ordered_witness :
    (⟨1, 1, 1, 1⟩ : QuantizationResult).lower_interval ≤
      (⟨1, 1, 1, 1⟩ : QuantizationResult).upper_interval :=
  c7_interval_ordered ⟨1/10, 0, SimilarityFunction.Euclidean⟩ fsqrt0 [1] 1 1 [0]
    [1] ⟨1, 1, 1, 1⟩ (by with_unfolding_all decide)

/-! ## C9 -/

/-- C9 counterexample: on a built index of dimension 2, a query of dimension 1
with `k = 0` returns `Ok([])` — the `k = 0` early return precedes the
dimension check, so "fails if the query's dimension disagrees" does not hold
at `k = 0`. -/
theorem c9_counterexample :
    stC9.quantized_vectors ≠ none ∧
    (match stC9.quantized_vectors with
     | some qv => qv.dimension
     | none => 0) = 2 ∧
    ([(1 : ℚ)].length ≠ 2) ∧
    QuantizedIndex.search_nearest_neighbors fsqrt0 stC9 [1] 0 = RRes.ok [] := by
  refine ⟨?_, ?_, ?_, ?_⟩ <;> with_unfolding_all decide

/-- C9 amended: search fails before build and on an empty query; with `k ≥ 1`
it fails when the query dimension disagrees with the index dimension; and on a
built index with a non-empty query, `k = 0` returns an empty result without
error (the `k = 0` early return fires before the dimension check). -/
theorem c9_search_guards (fsqrt : ℚ → ℚ) (st : QuantizedIndex) (q : List ℚ) (k : Nat) :
    (st.quantized_vectors = none →
      QuantizedIndex.search_nearest_neighbors fsqrt st q k = RRes.errs) ∧
    (∀ qv, st.quantized_vectors = some qv → q = [] →
      QuantizedIndex.search_nearest_neighbors fsqrt st q k = RRes.errs) ∧
    (∀ qv, st.quantized_vectors = some qv → q ≠ [] → k ≠ 0 →
      q.length ≠ qv.dimension →
      QuantizedIndex.search_nearest_neighbors fsqrt st q k = RRes.errs) ∧
    (∀ qv, st.quantized_vectors = some qv → q ≠ [] → k = 0 →
      QuantizedIndex.search_nearest_neighbors fsqrt st q k = RRes.ok []) := by
  refine ⟨?_, ?_, ?_, ?_⟩
  · intro hnone
    simp [QuantizedIndex.search_nearest_neighbors, hnone]
  · intro qv hqv hq
    simp [QuantizedIndex.search_nearest_neighbors, hqv, hq]
  · intro qv hqv hq hk hdim
    simp [QuantizedIndex.search_nearest_neighbors, hqv, hq, hk, hdim]
  · intro qv hqv hq hk
    simp [QuantizedIndex.search_nearest_neighbors, hqv, hq, hk]

/-- Witness for C9's amended theorem: `k = 0` on the concrete built index. -/
theorem c9_search_guards_witness :
    QuantizedIndex.search_nearest_neighbors fsqrt0 stC9 [5] 0 = RRes.ok [] := by
  have hqv : stC9.quantized_vectors = some (QuantizedVectorValuesImpl.new
      [[192]] [[1, 1]] [⟨0, 0, 0, 2⟩] [1, 1]) := by
    with_unfolding_all decide
  exact (c9_search_guards fsqrt0 stC9 [5] 0).2.2.2 _ hqv (by decide) rfl

/-! ## C10 -/

/-- C10: the centroid dot product handed to the scorer is always computed
from the caller's original query vector: `search_nearest_neighbors` equals the
variant that receives `dot(original query, centroid)` explicitly.  The second
conjunct exhibits a concrete Cosine-style situation where that value differs
from the dot product of the normalized query with the centroid (query
`[3, 4]` of magnitude 5), so the quantized query (from the normalized copy)
and the centroid dot product (from the raw copy) are derived from different
query vectors. -/
theorem c10_centroid_dp_uses_original_query :
    (∀ (fsqrt : ℚ → ℚ) (st : QuantizedIndex) (q : List ℚ) (k : Nat),
      QuantizedIndex.search_nearest_neighbors fsqrt st q k =
        match st.quantized_vectors with
        | none => RRes.errs
        | some qv => QuantizedIndex.search_with_centroid_dp fsqrt st q k
            (compute_dot_product q qv.centroid)) ∧
    (compute_dot_product [3, 4] [1, 0] ≠
      compute_dot_product
        (normalize_vector (fun x => if x = 25 then 5 else 0) [3, 4]) [1, 0]) := by
  constructor
  · intro fsqrt st q k
    cases hqv : st.quantized_vectors with
    | none =>
      unfold QuantizedIndex.search_nearest_neighbors
      rw [hqv]
    | some qv =>
      unfold QuantizedIndex.search_nearest_neighbors QuantizedIndex.search_with_centroid_dp
      rw [hqv]
      rfl
  · with_unfolding_all decide

/-! ## C4 -/

/-- C4 counterexample: `build_index` called again on an already-built instance
succeeds and replaces the corpus — the one-vector corpus of `stC9` becomes a
two-vector corpus, so corpus membership does change under a subsequent
operation on the same instance. -/
theorem c4_counterexample :
    stC9.quantized_vectors.isSome = true ∧
    (match stC9.quantized_vectors with
     | some qv => qv.size
     | none => 0) = 1 ∧
    (QuantizedIndex.build_index fsqrt0 stC9 [[1, 1], [1, 1]]).isOk = true ∧
    (match QuantizedIndex.build_index fsqrt0 stC9 [[1, 1], [1, 1]] with
     | RRes.ok st2 =>
       (match st2.quantized_vectors with
        | some qv => qv.size
        | none => 0)
     | _ => 0) = 2 := by
  refine ⟨?_, ?_, ?_, ?_⟩ <;> with_unfolding_all decide

theorem build_index_ok_isSome (fsqrt : ℚ → ℚ) (st : QuantizedIndex)
    (vectors : List (List ℚ)) (st2 : QuantizedIndex)
    (h : QuantizedIndex.build_index fsqrt st vectors = RRes.ok st2) :
    st2.quantized_vectors.isSome = true := by
  unfold QuantizedIndex.build_index at h
  dsimp only at h
  repeat' split at h
  all_goals try exact RRes.noConfusion h
  all_goals (injection h with h2; rw [← h2]; rfl)

/-- C4 amended: the Built state is absorbing — no operation returns a built
instance to the unbuilt state, and `search_nearest_neighbors` (which takes
`&self`) never mutates the instance.  However, corpus contents are not
immutable: a second successful `build_index` on the same instance replaces
them (see the counterexample). -/
theorem c4_built_state_absorbing (fsqrt : ℚ → ℚ) (st : QuantizedIndex) (op : IndexOp)
    (h : st.quantized_vectors.isSome = true) :
    (stepIndex fsqrt st op).quantized_vectors.isSome = true := by
  cases op with
  | searchOp q k => exact h
  | buildOp vs =>
    unfold stepIndex
    dsimp only
    cases hb : QuantizedIndex.build_index fsqrt st vs with
    | panics => exact h
    | errs => exact h
    | ok st2 => exact build_index_ok_isSome fsqrt st vs st2 hb

/-- Witness for C4's amended theorem at a concrete built instance. -/
theorem c4_built_state_absorbing_witness :
    (stepIndex fsqrt0 stC9 (.searchOp [1, 1] 1)).quantized_vectors.isSome = true :=
  c4_built_state_absorbing fsqrt0 stC9 (.searchOp [1, 1] 1)
    (by with_unfolding_all decide)

/-! ## C1 -/

theorem flatMap_slots_length (vectors : List (List Nat)) (ps : Nat) (idxs : List Nat) :
    (idxs.flatMap (fun index =>
      (vectors.getD index []).take ps ++
      List.replicate (ps - min ps (vectors.getD index []).length) 0)).length =
    idxs.length * ps := by
  induction idxs with
  | nil => simp
  | cons a t ih =>
    rw [List.flatMap_cons, List.length_append, ih, List.length_append,
      List.length_take, List.length_replicate, List.length_cons]
    rw [Nat.succ_mul]
    omega

theorem create_direct_packed_buffer_ok (vectors : List (List Nat)) (indices : List Nat)
    (ps : Nat) (h : ∀ o ∈ indices, o < vectors.length) :
    ∃ buf, create_direct_packed_buffer vectors indices ps = RRes.ok buf ∧
      buf.length = indices.length * ps := by
  unfold create_direct_packed_buffer
  rw [if_pos (by
    rw [List.all_eq_true]
    intro o ho
    exact decide_eq_true (h o ho))]
  exact ⟨_, rfl, flatMap_slots_length vectors ps indices⟩

theorem compute_batch_quantized_scores_four_bit_ok (s : BinaryQuantizedScorer)
    (qq : List Nat) (qc : QuantizationResult) (tv : List (List Nat))
    (tc : List QuantizationResult) (ords : List Nat) (dimension : Nat) (cdp : ℚ)
    (hords : ∀ o ∈ ords, o < tv.length)
    (hq : dimension ≤ qq.length)
    (htc : ords.length ≤ tc.length) :
    ∃ l, s.compute_batch_quantized_scores qq qc tv tc ords 4 dimension cdp =
      RRes.ok l := by
  obtain ⟨buf, hbuf, hbuflen⟩ :=
    create_direct_packed_buffer_ok tv ords ((dimension + 7) / 8) hords
  unfold BinaryQuantizedScorer.compute_batch_quantized_scores
  dsimp only
  rw [if_pos rfl]
  simp only [hbuf]
  have hker : compute_batch_four_bit_dot_product_direct_packed qq buf ords.length
      dimension = RRes.ok ((List.range ords.length).map (fun i =>
        fourBitDotOne qq buf (i * ((dimension + 7) / 8)) dimension)) := by
    unfold compute_batch_four_bit_dot_product_direct_packed
    dsimp only
    rw [if_pos (Or.inr (Or.inr ⟨hq, by rw [hbuflen]⟩))]
  simp only [hker]
  rw [if_pos (by simp [htc])]
  exact ⟨_, rfl⟩

/-- A `searchBatches` step whose batch is well-formed (all global ordinals in
range of the corpus arrays, and in range of the batch-local list that
`create_direct_packed_buffer` indexes) computes its scores and recurses; if
the recursion panics, the whole call panics.  Stated for the default
`index_bits = 1`, `query_bits = 4` configuration. -/
theorem searchBatches_cons_panics_of (s : BinaryQuantizedScorer)
    (qv : QuantizedVectorValuesImpl) (qq : List Nat) (qc : QuantizationResult)
    (cdp : ℚ) (b : Nat) (more : List Nat)
    (hv : ∀ i ∈ (List.range (min (b + 1000) qv.vectors.length - b)).map (b + ·),
      i < qv.vectors.length)
    (hc : ∀ i ∈ (List.range (min (b + 1000) qv.vectors.length - b)).map (b + ·),
      i < qv.corrections.length)
    (hords : ∀ o ∈ (List.range (min (b + 1000) qv.vectors.length - b)).map (b + ·),
      o < min (b + 1000) qv.vectors.length - b)
    (hq : qv.dimension ≤ qq.length)
    (hmore : searchBatches s qv 1 4 qq qc cdp more = RRes.panics) :
    searchBatches s qv 1 4 qq qc cdp (b :: more) = RRes.panics := by
  rw [searchBatches]
  dsimp only
  rw [if_pos rfl]
  rw [if_pos (by
    rw [List.all_eq_true]
    intro i hi
    exact decide_eq_true (hv i hi))]
  rw [if_pos (by
    rw [List.all_eq_true]
    intro i hi
    exact decide_eq_true (hc i hi))]
  obtain ⟨l, hl⟩ := compute_batch_quantized_scores_four_bit_ok s qq qc
    (((List.range (min (b + 1000) qv.vectors.length - b)).map (b + ·)).map
      (fun i => qv.vectors.getD i []))
    (((List.range (min (b + 1000) qv.vectors.length - b)).map (b + ·)).map
      (fun i => qv.corrections.getD i zeroCorrections))
    ((List.range (min (b + 1000) qv.vectors.length - b)).map (b + ·))
    qv.dimension cdp
    (by
      intro o ho
      simp only [List.length_map, List.length_range]
      have h1 := hords o ho
      omega)
    hq
    (by simp only [List.length_map]; exact le_refl _)
  simp only [hl]
  simp only [hmore]

/-- A built-state `search_nearest_neighbors` run factored through its pieces:
if the state is built, the query guards pass, query quantization succeeds, and
the batch loop panics, then the whole search panics. -/
theorem search_some_panics (fsqrt : ℚ → ℚ) (st : QuantizedIndex) (q : List ℚ)
    (k : Nat) (qv : QuantizedVectorValuesImpl) (qres : List Nat × QuantizationResult)
    (hqv : st.quantized_vectors = some qv)
    (hqne : ¬ q = []) (hk : ¬ k = 0) (hdim : ¬ q.length ≠ qv.dimension)
    (hquant : QuantizedIndex.quantize_query_vector fsqrt st q qv.centroid = RRes.ok qres)
    (hbat : searchBatches st.scorer qv st.config.index_bits st.config.query_bits
      qres.1 qres.2 (qv.get_centroid_dp (some q))
      ((List.range ((qv.size + 999) / 1000)).map (· * 1000)) = RRes.panics) :
    QuantizedIndex.search_nearest_neighbors fsqrt st q k = RRes.panics := by
  unfold QuantizedIndex.search_nearest_neighbors
  rw [hqv]
  dsimp only
  rw [if_neg hqne, if_neg hk, if_neg hdim, hquant]
  dsimp only
  rw [hbat]

set_option maxRecDepth 100000 in
/-- C1: with the default bit widths (`query_bits = 4`, `index_bits = 1`) and a
corpus of 1001 entries — one more than the batch size — `search` panics
instead of returning `Ok`: the second batch passes the global ordinal 1000 as
an index into the batch-local, single-element target-vector list inside
`create_direct_packed_buffer`. -/
theorem c1_search_panics_beyond_batch_size :
    QuantizedIndex.search_nearest_neighbors fsqrt0 stC1 [1] 1 = RRes.panics := by
  have hq : QuantizedIndex.quantize_query_vector fsqrt0 stC1 [1] implC1.centroid =
      RRes.ok ([0], ⟨1, 1, 1, 0⟩) := by with_unfolding_all decide
  have hstarts : (List.range ((implC1.size + 999) / 1000)).map (fun x => x * 1000) =
      [0, 1000] := by with_unfolding_all decide
  have hib : stC1.config.index_bits = 1 := rfl
  have hqb : stC1.config.query_bits = 4 := rfl
  have hlen : implC1.vectors.length = 1001 := by
    simp [implC1, QuantizedVectorValuesImpl.new]
  have hclen : implC1.corrections.length = 1001 := by
    simp [implC1, QuantizedVectorValuesImpl.new]
  have h2 : searchBatches stC1.scorer implC1 1 4 [0] ⟨1, 1, 1, 0⟩
      (implC1.get_centroid_dp (some [1])) [1000] = RRes.panics := by
    with_unfolding_all decide
  have hAll : searchBatches stC1.scorer implC1 1 4 [0] ⟨1, 1, 1, 0⟩
      (implC1.get_centroid_dp (some [1])) [0, 1000] = RRes.panics := by
    refine searchBatches_cons_panics_of stC1.scorer implC1 [0] ⟨1, 1, 1, 0⟩
      (implC1.get_centroid_dp (some [1])) 0 [1000] ?_ ?_ ?_ ?_ h2
    · intro i hi
      simp only [List.mem_map, List.mem_range] at hi
      obtain ⟨x, hx, rfl⟩ := hi
      rw [hlen] at hx
      rw [hlen]
      omega
    · intro i hi
      simp only [List.mem_map, List.mem_range] at hi
      obtain ⟨x, hx, rfl⟩ := hi
      rw [hlen] at hx
      rw [hclen]
      omega
    · intro o ho
      simp only [List.mem_map, List.mem_range] at ho
      obtain ⟨x, hx, rfl⟩ := ho
      rw [hlen] at hx ⊢
      omega
    · rw [show implC1.dimension = 1 from rfl]
      decide
  refine search_some_panics fsqrt0 stC1 [1] 1 implC1 ([0], ⟨1, 1, 1, 0⟩) rfl
    (by decide) (by decide) (fun hne => hne rfl) hq ?_
  rw [hstarts, hib, hqb]
  exact hAll
